import Mathlib

/-
Verification of the habit-and-workout tracker backend.

Shallow embedding conventions:
* Calendar dates are integer day numbers (days since the Unix epoch).  Every
  route truncates dates with setHours(0,0,0,0) before comparing, and the
  completion endpoint stores truncated dates, so completion records are
  day-granular.  We assume a fixed-offset timezone (no DST), under which
  "today's midnight minus 86400000 ms" is exactly yesterday's midnight.
* The current clock is a pair (today, tod): the day number and the
  milliseconds elapsed since that day's midnight.
* JavaScript numbers are modelled as rationals (ℚ); Math.round / Math.ceil
  become floor-based rounding on ℚ.
* Mongoose documents become structures; collections become lists; findOne
  picks the first match and in-place mutation becomes update-first.
-/

namespace HabitGym

/-- Milliseconds in one day, the constant 1000*60*60*24 used by the routes. -/
def dayMs : ℕ := 86400000

/-- JS Math.round(x*100)/100 : round to two decimals, halves away from zero
for nonnegative inputs (Math.round rounds half towards +infinity). -/
def jsRound2 (q : ℚ) : ℚ := (⌊q * 100 + 1 / 2⌋ : ℚ) / 100

/-- JS getDay() for a date at the midnight of day number d:
1970-01-01 (day 0) was a Thursday, so Sunday=0 comes out as (d+4) mod 7. -/
def jsDayOfWeek (d : ℤ) : ℕ := ((d + 4) % 7).toNat

/-- Goal type of a habit: boolean completion or numeric target. -/
inductive GoalType
  | yesNo
  | numeric
deriving DecidableEq

/-- One completion record of a habit: day-granular date, completed flag,
optional numeric value. -/
structure CompletionRec where
  date : ℤ
  completed : Bool
  value : Option ℚ
deriving DecidableEq

/-- The fields of a Habit document that the analytics and completion routes
read: start date, goal type and the completion list. -/
structure Habit where
  startDate : ℤ
  goalType : GoalType
  completions : List CompletionRec
deriving DecidableEq

/-- Dates of the completed records of a habit, in stored order
(habit.completions.filter(c => c.completed) mapped to dates). -/
def completedDaysOf (h : Habit) : List ℤ :=
  (h.completions.filter (·.completed)).map (·.date)

/-- The JS sort((a, b) => dateB - dateA): sort descending by date. -/
def sortDesc (l : List ℤ) : List ℤ :=
  List.insertionSort (fun a b => b ≤ a) l

instance : IsTotal ℤ (fun a b => b ≤ a) := ⟨fun a b => le_total b a⟩

instance : IsTrans ℤ (fun a b => b ≤ a) := ⟨fun _ _ _ h₁ h₂ => le_trans h₂ h₁⟩

/-- The streak-walking loop shared by the analytics routes: starting from a
check date, count how many successive entries of the (descending sorted)
tail continue the run of consecutive days. -/
def walkCount : ℤ → List ℤ → ℕ
  | _, [] => 0
  | check, x :: rest => if x = check then 1 + walkCount (check - 1) rest else 0

/-- currentStreak of GET /:id/analytics: 0 when there is no completed record
or the latest one is neither today nor yesterday; otherwise 1 plus the
length of the consecutive-day walk backwards. -/
def currentStreakOf (today : ℤ) (sorted : List ℤ) : ℕ :=
  match sorted with
  | [] => 0
  | d :: rest =>
    if d = today ∨ d = today - 1 then 1 + walkCount (d - 1) rest else 0

/-- The longest-streak loop of GET /:id/analytics: prev is the previously
visited date, temp the length of the current run, best the best completed
run; a gap (difference other than one day) closes the current run. -/
def longestAux : ℤ → ℕ → ℕ → List ℤ → ℕ
  | _, temp, best, [] => max best temp
  | prev, temp, best, x :: rest =>
    if prev - x = 1 then longestAux x (temp + 1) best rest
    else longestAux x 1 (max best temp) rest

/-- longestStreak of GET /:id/analytics over the descending sorted completed
dates: the first entry opens a run of length 1. -/
def longestStreakOf : List ℤ → ℕ
  | [] => 0
  | d :: rest => longestAux d 1 1 rest

/-- Maximal run length of a descending-sorted day list, presented as
structural recursion: the initial run of the head (via walkCount) against
the best run of what remains after it.  Proved equal to longestStreakOf on
sorted inputs. -/
def runsMax : List ℤ → ℕ
  | [] => 0
  | d :: rest =>
    max (1 + walkCount (d - 1) rest) (runsMax (rest.drop (walkCount (d - 1) rest)))
termination_by l => l.length
decreasing_by
  simp only [List.length_drop, List.length_cons]
  omega

/-- One heatmap entry of GET /:id/analytics. -/
structure HeatEntry where
  date : ℤ
  completed : Bool
  value : Option ℚ
deriving DecidableEq

/-- The JSON payload of GET /:id/analytics. -/
structure AnalyticsResult where
  completionRate : ℚ
  currentStreak : ℕ
  longestStreak : ℕ
  totalCompletions : ℕ
  weeklyData : List (ℕ × ℕ)
  heatmapData : List HeatEntry
deriving DecidableEq

/-- GET /api/habits/:id/analytics.  today/tod is the request clock, days the
?days query parameter (default 30).  The window start is midnight of
(today - days); totalDaysInRange is Math.ceil((now - startDate)/dayMs);
streaks are computed over the full history; the heatmap covers the fixed
trailing 30 days. -/
def windowCompletions (habit : Habit) (today : ℤ) (days : ℕ) : List CompletionRec :=
  habit.completions.filter (fun c => today - (days : ℤ) ≤ c.date)

/-- Math.ceil((now - startDate) / (1000*60*60*24)) of the analytics route,
where now is the raw clock and startDate the midnight of (today - days). -/
def totalDaysInRange (today : ℤ) (tod days : ℕ) : ℤ :=
  ⌈(((today * dayMs + tod) - (today - (days : ℤ)) * dayMs : ℤ) : ℚ) / (dayMs : ℚ)⌉

def habitAnalytics (habit : Habit) (today : ℤ) (tod : ℕ) (days : ℕ) :
    AnalyticsResult :=
  let filteredCompletions := windowCompletions habit today days
  let completedCount := (filteredCompletions.filter (·.completed)).length
  let completionRate : ℚ :=
    if 0 < totalDaysInRange today tod days then
      ((completedCount : ℚ) / ((totalDaysInRange today tod days : ℤ) : ℚ)) * 100
    else 0
  let sortedCompletions := sortDesc (completedDaysOf habit)
  let currentStreak := currentStreakOf today sortedCompletions
  let longestStreak := longestStreakOf sortedCompletions
  let weeklyData := (List.range 7).map (fun i =>
    (i, ((filteredCompletions.filter (·.completed)).filter
          (fun c => jsDayOfWeek c.date = i)).length))
  let heatmapData := (List.range 30).map (fun (k : ℕ) =>
    let date := today - (29 - (k : ℤ))
    match habit.completions.find? (fun c => c.date == date && c.completed) with
    | some c => { date := date, completed := true, value := c.value : HeatEntry }
    | none => { date := date, completed := false, value := none : HeatEntry })
  { completionRate := jsRound2 completionRate
    currentStreak := currentStreak
    longestStreak := longestStreak
    totalCompletions := completedCount
    weeklyData := weeklyData
    heatmapData := heatmapData }

/-- Completion rate as the specification words it: completed records within
the window divided by the number of elapsed days since the habit's start
date within that window, as a percentage rounded to two decimals.  This
definition follows the spec text and is compared against habitAnalytics,
which divides by the window length instead. -/
def specCompletionRate (habit : Habit) (today : ℤ) (days : ℕ) : ℚ :=
  let windowStart : ℤ := today - days
  let completedCount :=
    ((habit.completions.filter (fun c => windowStart ≤ c.date)).filter
      (·.completed)).length
  let elapsed : ℤ := min (today - habit.startDate) (days : ℤ)
  if 0 < elapsed then jsRound2 (((completedCount : ℚ) / (elapsed : ℚ)) * 100) else 0

/-- In-place update of an existing completion record by POST /:id/complete:
completed is set to true; the value is overwritten only when the request
carries one and the habit is numeric. -/
def completeRecord (goalType : GoalType) (value? : Option ℚ)
    (c : CompletionRec) : CompletionRec :=
  { c with
    completed := true
    value := if goalType = GoalType.numeric ∧ value?.isSome then value? else c.value }

/-- The find-or-create body of POST /:id/complete on the completion list:
the first record whose (truncated) date matches is updated in place,
otherwise a new record is pushed at the end. -/
def completeList (goalType : GoalType) (value? : Option ℚ) (d : ℤ) :
    List CompletionRec → List CompletionRec
  | [] => [{ date := d, completed := true,
             value := if goalType = GoalType.numeric then value? else none }]
  | c :: rest =>
    if c.date = d then completeRecord goalType value? c :: rest
    else c :: completeList goalType value? d rest

/-- POST /api/habits/:id/complete for a found habit: d is the request date
truncated to its day (defaulted to today upstream). -/
def completeOp (habit : Habit) (d : ℤ) (value? : Option ℚ) : Habit :=
  { habit with completions := completeList habit.goalType value? d habit.completions }

/-- The full GET /:id/analytics handler: 404 when findOne returns nothing,
otherwise the computed analytics payload. -/
def analyticsResponse (habit? : Option Habit) (today : ℤ) (tod days : ℕ) :
    Except (ℕ × String) AnalyticsResult :=
  match habit? with
  | none => Except.error (404, "Habit not found")
  | some habit => Except.ok (habitAnalytics habit today tod days)

/-- The NODE_ENV value the server branches on. -/
inductive Env
  | development
  | production
  | test
deriving DecidableEq

/-- The JSON body and status of an error response; error carries the
route-level error field, stack the global handler's stack field. -/
structure ErrorResponse where
  status : ℕ
  message : String
  error : Option String
  stack : Option String
deriving DecidableEq

set_option linter.unusedVariables false in
/-- The catch handler shared by every habit and workout route:
res.status(500).json with a generic message and error: error.message.  It
does not branch on the environment. -/
def routeCatchResponse (env : Env) (errMessage : String) : ErrorResponse :=
  { status := 500
    message := "Server error"
    error := some errMessage
    stack := none }

/-- The global Express error handler in server.js: err.status or 500,
err.message or a generic text, and the stack attached in development
mode only. -/
def globalErrorResponse (env : Env) (status? : Option ℕ)
    (message? : Option String) (stack : String) : ErrorResponse :=
  { status := status?.getD 500
    message := message?.getD "Internal server error"
    error := none
    stack := if env = Env.development then some stack else none }

/-- One set of an exercise: reps, weight, optional rest time and RPE,
completed flag (defaulted true). -/
structure SetRec where
  reps : ℚ
  weight : ℚ
  restTime : Option ℚ
  rpe : Option ℚ
  completed : Bool
deriving DecidableEq

/-- One exercise of a workout: name, optional muscle-group and equipment
tags, ordered sets, display order. -/
structure ExerciseRec where
  name : String
  muscleGroup : Option String
  equipment : Option String
  sets : List SetRec
  order : ℕ
deriving DecidableEq

/-- Workout lifecycle status. -/
inductive WStatus
  | planned
  | active
  | paused
  | completed
deriving DecidableEq

/-- A Workout document.  date is a day number; startTime/endTime/pausedAt
are millisecond timestamps; duration and pausedDuration are seconds. -/
structure Workout where
  id : ℕ
  date : ℤ
  status : WStatus
  startTime : Option ℤ
  endTime : Option ℤ
  duration : ℤ
  pausedDuration : ℤ
  pausedAt : Option ℤ
  exercises : List ExerciseRec
  notes : String
  workoutType : Option String
  weightUnit : String
  caloriesBurned : Option ℚ
deriving DecidableEq

/-- Math.max over a spread list, only ever called on a nonempty one (the
routes guard sets.length > 0 and return 0 otherwise). -/
def maxOf : List ℚ → ℚ
  | [] => 0
  | x :: xs => xs.foldl max x

/-- Math.max(...list, 0) as the frontend PR badge computes it. -/
def jsMaxWithZero (l : List ℚ) : ℚ := l.foldl max 0

/-- maxWeight of one exercise occurrence: Math.max over its sets' weights,
0 when there are no sets. -/
def exMaxWeight (e : ExerciseRec) : ℚ :=
  if 0 < e.sets.length then maxOf (e.sets.map (·.weight)) else 0

/-- maxReps of one exercise occurrence: Math.max over its sets' reps, 0
when there are no sets. -/
def exMaxReps (e : ExerciseRec) : ℚ :=
  if 0 < e.sets.length then maxOf (e.sets.map (·.reps)) else 0

/-- totalVolume of one exercise occurrence: reduce((sum, set) => sum +
set.reps * set.weight, 0). -/
def exVolume (e : ExerciseRec) : ℚ :=
  e.sets.foldl (fun sum s => sum + s.reps * s.weight) 0

/-- The estimated 1RM of the progression route: 0 unless both maxWeight and
maxReps are positive, maxWeight itself when maxReps is 1, Epley's
maxWeight * (1 + maxReps/30) otherwise. -/
def epley1RM (maxWeight maxReps : ℚ) : ℚ :=
  if 0 < maxWeight ∧ 0 < maxReps then
    (if maxReps = 1 then maxWeight else maxWeight * (1 + maxReps / 30))
  else 0

/-- One entry of the per-exercise progression series. -/
structure ProgEntry where
  date : ℤ
  maxWeight : ℚ
  totalVolume : ℚ
  sets : ℕ
  maxReps : ℚ
  estimated1RM : ℚ
deriving DecidableEq

/-- The entry pushed to exerciseProgress for one exercise occurrence. -/
def progEntry (date : ℤ) (e : ExerciseRec) : ProgEntry :=
  { date := date
    maxWeight := exMaxWeight e
    totalVolume := exVolume e
    sets := e.sets.length
    maxReps := exMaxReps e
    estimated1RM := epley1RM (exMaxWeight e) (exMaxReps e) }

/-- toLowerCase used by the exerciseName query filter. -/
def lowerStr (s : String) : String := s.map Char.toLower

/-- The exerciseName filter of the progression and PR routes: skip an
exercise unless its lowercased name matches the query parameter. -/
def includeExercise (exName? : Option String) (e : ExerciseRec) : Bool :=
  match exName? with
  | none => true
  | some n => lowerStr e.name == lowerStr n

/-- Civil date (year, month 1..12, day 1..31) of a day number, following
the standard days-to-civil conversion a JS Date performs. -/
def civilFromDays (z : ℤ) : ℤ × ℤ × ℤ :=
  let z' := z + 719468
  let era := z'.fdiv 146097
  let doe := z' - era * 146097
  let yoe := (doe - doe.fdiv 1460 + doe.fdiv 36524 - doe.fdiv 146096).fdiv 365
  let y := yoe + era * 400
  let doy := doe - (365 * yoe + yoe.fdiv 4 - yoe.fdiv 100)
  let mp := (5 * doy + 2).fdiv 153
  let d := doy - (153 * mp + 2).fdiv 5 + 1
  let m := mp + (if mp < 10 then 3 else -9)
  (if m ≤ 2 then y + 1 else y, m, d)

/-- Day number of a civil date (inverse conversion). -/
def daysFromCivil (y m d : ℤ) : ℤ :=
  let y' := if m ≤ 2 then y - 1 else y
  let era := y'.fdiv 400
  let yoe := y' - era * 400
  let doy := (153 * (if 2 < m then m - 3 else m + 9) + 2).fdiv 5 + d - 1
  let doe := yoe * 365 + yoe.fdiv 4 - yoe.fdiv 100 + doy
  era * 146097 + doe - 719468

/-- The week bucket key of the progression route:
year-W(ceil((dayOfMonth + weekday(last day of previous month) + 1) / 7)),
where the weekday comes from new Date(year, month, 0). -/
def weekKey (z : ℤ) : ℤ × ℤ :=
  let c := civilFromDays z
  let lastDayPrevMonth := daysFromCivil c.1 c.2.1 1 - 1
  (c.1, ⌈((c.2.2 + (jsDayOfWeek lastDayPrevMonth : ℤ) + 1 : ℤ) : ℚ) / 7⌉)

/-- Accumulate v into the bucket keyed k of an association list, creating
the bucket at the end on first use (JS object property update). -/
def addToKey {κ : Type} [DecidableEq κ] (k : κ) (v : ℚ) :
    List (κ × ℚ) → List (κ × ℚ)
  | [] => [(k, v)]
  | (k', v') :: rest =>
    if k' = k then (k', v' + v) :: rest else (k', v') :: addToKey k v rest

/-- Append an entry to the list bucket keyed k (exerciseProgress push). -/
def appendToKey (k : String) (e : ProgEntry) :
    List (String × List ProgEntry) → List (String × List ProgEntry)
  | [] => [(k, [e])]
  | (k', es) :: rest =>
    if k' = k then (k', es ++ [e]) :: rest else (k', es) :: appendToKey k e rest

/-- Key lookup in a JS-object-as-association-list. -/
def lookupKey {β : Type} (k : String) : List (String × β) → Option β
  | [] => none
  | (k', v) :: rest => if k' = k then some v else lookupKey k rest

/-- One point of the volumeTrend series. -/
structure VolPoint where
  date : ℤ
  volume : ℚ
  duration : ℤ
deriving DecidableEq

/-- Accumulator state of the progression route's double forEach. -/
structure ProgState where
  exerciseProgress : List (String × List ProgEntry)
  muscleGroupDistribution : List (String × ℚ)
  volumeTrend : List VolPoint
  weeklyVolume : List ((ℤ × ℤ) × ℚ)
deriving DecidableEq

/-- The inner forEach body over one exercise: skip it unless it passes the
name filter, else push its progression entry, add its volume to the muscle
group distribution and to the running workout volume. -/
def exStep (exName? : Option String) (date : ℤ) (acc : ProgState × ℚ)
    (e : ExerciseRec) : ProgState × ℚ :=
  if includeExercise exName? e then
    let st := acc.1
    let v := exVolume e
    let st := { st with
      exerciseProgress := appendToKey e.name (progEntry date e) st.exerciseProgress }
    let st := match e.muscleGroup with
      | some gname =>
        { st with muscleGroupDistribution :=
            addToKey gname v st.muscleGroupDistribution }
      | none => st
    (st, acc.2 + v)
  else acc

/-- The outer forEach body over one workout: fold its exercises, then push
the volumeTrend point and add the workout volume to its week bucket. -/
def progressionStep (exName? : Option String) (st : ProgState) (w : Workout) :
    ProgState :=
  let acc := w.exercises.foldl (exStep exName? w.date) (st, 0)
  { acc.1 with
    volumeTrend := acc.1.volumeTrend ++
      [{ date := w.date, volume := acc.2, duration := w.duration }]
    weeklyVolume := addToKey (weekKey w.date) acc.2 acc.1.weeklyVolume }

/-- Sort ascending by date ({ date: 1 } of the progression and PR
queries). -/
def sortByDateAsc (ws : List Workout) : List Workout :=
  List.insertionSort (fun a b => a.date ≤ b.date) ws

/-- The DB query of GET /analytics/progression: completed workouts, date at
or after the cutoff, and (when given) containing an exercise tagged with
the requested muscle group; sorted ascending by date. -/
def progressionQuery (muscleGroup? : Option String) (startDay : ℤ)
    (ws : List Workout) : List Workout :=
  sortByDateAsc (ws.filter (fun w =>
    w.status == WStatus.completed && decide (startDay ≤ w.date) &&
      (match muscleGroup? with
       | none => true
       | some mg => w.exercises.any (fun e => e.muscleGroup == some mg))))

/-- GET /api/workouts/analytics/progression over the fetched collection. -/
def progression (exName? : Option String) (muscleGroup? : Option String)
    (startDay : ℤ) (ws : List Workout) : ProgState :=
  (progressionQuery muscleGroup? startDay ws).foldl (progressionStep exName?)
    { exerciseProgress := []
      muscleGroupDistribution := []
      volumeTrend := []
      weeklyVolume := [] }

/-- Stored personal records of one exercise name: best-ever maxWeight,
maxReps and totalVolume, each with the date it was set. -/
structure PrRec where
  maxWeight : ℚ
  maxReps : ℚ
  maxVolume : ℚ
  maxWeightDate : ℤ
  maxRepsDate : ℤ
  maxVolumeDate : ℤ
deriving DecidableEq

/-- The PR-tracking update of GET /prs: each of the three dimensions is
replaced (with its date) only when strictly exceeded. -/
def prUpdate (date : ℤ) (mw mr tv : ℚ) (pr : PrRec) : PrRec :=
  let pr₁ := if pr.maxWeight < mw then
    { pr with maxWeight := mw, maxWeightDate := date } else pr
  let pr₂ := if pr₁.maxReps < mr then
    { pr₁ with maxReps := mr, maxRepsDate := date } else pr₁
  if pr₂.maxVolume < tv then
    { pr₂ with maxVolume := tv, maxVolumeDate := date } else pr₂

/-- Replace the value stored under key k of an association list. -/
def updateKey {β : Type} (k : String) (f : β → β) :
    List (String × β) → List (String × β)
  | [] => []
  | (k', v) :: rest =>
    if k' = k then (k', f v) :: rest else (k', v) :: updateKey k f rest

/-- The inner forEach of GET /prs over one exercise occurrence: skip it
unless it passes the name filter, initialise its PR entry on first sight,
update it otherwise. -/
def prExStep (exName? : Option String) (date : ℤ) (prs : List (String × PrRec))
    (e : ExerciseRec) : List (String × PrRec) :=
  if includeExercise exName? e then
    match lookupKey e.name prs with
    | none => prs ++ [(e.name,
        { maxWeight := exMaxWeight e
          maxReps := exMaxReps e
          maxVolume := exVolume e
          maxWeightDate := date
          maxRepsDate := date
          maxVolumeDate := date })]
    | some _ =>
      updateKey e.name (prUpdate date (exMaxWeight e) (exMaxReps e) (exVolume e)) prs
  else prs

/-- The outer forEach of GET /prs over one workout. -/
def prsStep (exName? : Option String) (prs : List (String × PrRec))
    (w : Workout) : List (String × PrRec) :=
  w.exercises.foldl (prExStep exName? w.date) prs

/-- The DB query of GET /prs: all completed workouts of the user, date
ascending. -/
def prsQuery (ws : List Workout) : List Workout :=
  sortByDateAsc (ws.filter (fun w => w.status == WStatus.completed))

/-- GET /api/workouts/prs over the fetched collection. -/
def prsCompute (exName? : Option String) (ws : List Workout) :
    List (String × PrRec) :=
  (prsQuery ws).foldl (prsStep exName?) []

/-- The frontend PR badge: the exercises of a workout whose max set weight
reaches the stored maxWeight or whose max set reps reaches the stored
maxReps (total volume is not consulted). -/
def workoutPRs (prs : List (String × PrRec)) (w : Workout) : List ExerciseRec :=
  w.exercises.filter (fun ex =>
    match lookupKey ex.name prs with
    | none => false
    | some pr =>
      decide (pr.maxWeight ≤ jsMaxWithZero (ex.sets.map (·.weight))) ||
        decide (pr.maxReps ≤ jsMaxWithZero (ex.sets.map (·.reps))))

/-- A workout is counted against the one-active-workout rule when its
status is active or paused. -/
def isActiveOrPaused (w : Workout) : Bool :=
  w.status == WStatus.active || w.status == WStatus.paused

/-- In-place mutation of the first document matching q, as findOne
followed by save. -/
def updateFirst (q : Workout → Bool) (f : Workout → Workout) :
    List Workout → List Workout
  | [] => []
  | w :: rest => if q w then f w :: rest else w :: updateFirst q f rest

/-- findOneAndDelete: remove the first document matching q. -/
def removeFirst (q : Workout → Bool) : List Workout → List Workout
  | [] => []
  | w :: rest => if q w then rest else w :: removeFirst q rest

/-- The optional fields PUT /:id may replace; status is not among them. -/
structure UpdatePatch where
  date? : Option ℤ
  exercises? : Option (List ExerciseRec)
  notes? : Option String
  workoutType? : Option (Option String)
  weightUnit? : Option String
  duration? : Option ℤ
  caloriesBurned? : Option (Option ℚ)
deriving DecidableEq

/-- Apply the PUT /:id field updates to a found workout. -/
def applyPatch (p : UpdatePatch) (w : Workout) : Workout :=
  { w with
    date := p.date?.getD w.date
    exercises := p.exercises?.getD w.exercises
    notes := p.notes?.getD w.notes
    workoutType := p.workoutType?.getD w.workoutType
    weightUnit := p.weightUnit?.getD w.weightUnit
    duration := p.duration?.getD w.duration
    caloriesBurned := p.caloriesBurned?.getD w.caloriesBurned }

/-- POST /api/workouts/start: reject with 400 while an active or paused
workout exists, else insert a fresh active workout. -/
def startOp (newId : ℕ) (nowDate nowMs : ℤ) (date? : Option ℤ)
    (workoutType? : Option String) (weightUnit? : Option String)
    (s : List Workout) : List Workout × ℕ :=
  if s.any isActiveOrPaused then (s, 400)
  else
    (s ++ [{ id := newId
             date := date?.getD nowDate
             status := WStatus.active
             startTime := some nowMs
             endTime := none
             duration := 0
             pausedDuration := 0
             pausedAt := none
             exercises := []
             notes := ""
             workoutType := workoutType?
             weightUnit := weightUnit?.getD "kg"
             caloriesBurned := none }], 201)

/-- The pause mutation saved by POST /:id/pause: bank the elapsed active
seconds, remember when the pause began, switch to paused. -/
def pauseSave (nowMs : ℤ) (w : Workout) : Workout :=
  { w with
    duration := w.duration + (nowMs - w.startTime.getD 0).fdiv 1000
    pausedAt := some nowMs
    status := WStatus.paused }

/-- The resume mutation saved by POST /:id/resume: bank the paused seconds,
clear pausedAt, switch back to active with a fresh startTime. -/
def resumeSave (nowMs : ℤ) (w : Workout) : Workout :=
  { w with
    pausedDuration := w.pausedDuration + (nowMs - w.pausedAt.getD 0).fdiv 1000
    pausedAt := none
    status := WStatus.active
    startTime := some nowMs }

/-- The completion mutation saved by POST /:id/end: final duration (adding
the open active stretch when ending from active), completed status. -/
def endSave (nowMs : ℤ) (w : Workout) : Workout :=
  { w with
    status := WStatus.completed
    endTime := some nowMs
    duration := if w.status = WStatus.active then
      w.duration + (nowMs - w.startTime.getD 0).fdiv 1000
    else w.duration
    pausedAt := none }

/-- POST /api/workouts/:id/pause. -/
def pauseOp (wid : ℕ) (nowMs : ℤ) (s : List Workout) : List Workout × ℕ :=
  match s.find? (fun w => w.id == wid) with
  | none => (s, 404)
  | some w =>
    if w.status = WStatus.active then
      (updateFirst (fun w' => w'.id == wid) (pauseSave nowMs) s, 200)
    else (s, 400)

/-- POST /api/workouts/:id/resume. -/
def resumeOp (wid : ℕ) (nowMs : ℤ) (s : List Workout) : List Workout × ℕ :=
  match s.find? (fun w => w.id == wid) with
  | none => (s, 404)
  | some w =>
    if w.status = WStatus.paused then
      (updateFirst (fun w' => w'.id == wid) (resumeSave nowMs) s, 200)
    else (s, 400)

/-- POST /api/workouts/:id/end. -/
def endOp (wid : ℕ) (nowMs : ℤ) (s : List Workout) : List Workout × ℕ :=
  match s.find? (fun w => w.id == wid) with
  | none => (s, 404)
  | some w =>
    if w.status = WStatus.active ∨ w.status = WStatus.paused then
      (updateFirst (fun w' => w'.id == wid) (endSave nowMs) s, 200)
    else (s, 400)

/-- POST /api/workouts (manual create): requires a nonempty exercise list
and stores the workout as completed. -/
def createOp (newId : ℕ) (nowDate : ℤ) (date? : Option ℤ)
    (exercises : List ExerciseRec) (notes? : Option String)
    (workoutType? : Option String) (weightUnit? : Option String)
    (duration? : Option ℤ) (caloriesBurned? : Option ℚ)
    (s : List Workout) : List Workout × ℕ :=
  if exercises.isEmpty then (s, 400)
  else
    (s ++ [{ id := newId
             date := date?.getD nowDate
             status := WStatus.completed
             startTime := none
             endTime := some (date?.getD nowDate)
             duration := duration?.getD 0
             pausedDuration := 0
             pausedAt := none
             exercises := exercises
             notes := notes?.getD ""
             workoutType := workoutType?
             weightUnit := weightUnit?.getD "kg"
             caloriesBurned := caloriesBurned? }], 201)

/-- PUT /api/workouts/:id: rejected on an active or paused workout, and the
patch never touches status. -/
def updateOp (wid : ℕ) (p : UpdatePatch) (s : List Workout) :
    List Workout × ℕ :=
  match s.find? (fun w => w.id == wid) with
  | none => (s, 404)
  | some w =>
    if isActiveOrPaused w then (s, 400)
    else (updateFirst (fun w' => w'.id == wid) (applyPatch p) s, 200)

/-- DELETE /api/workouts/:id. -/
def deleteOp (wid : ℕ) (s : List Workout) : List Workout × ℕ :=
  match s.find? (fun w => w.id == wid) with
  | none => (s, 404)
  | some _ => (removeFirst (fun w' => w'.id == wid) s, 200)

/-- The workout operations of the start/pause/resume/end lifecycle together
with manual create, update and delete. -/
inductive WOp
  | start (newId : ℕ) (nowDate nowMs : ℤ) (date? : Option ℤ)
      (workoutType? : Option String) (weightUnit? : Option String)
  | pause (wid : ℕ) (nowMs : ℤ)
  | resume (wid : ℕ) (nowMs : ℤ)
  | endWorkout (wid : ℕ) (nowMs : ℤ)
  | create (newId : ℕ) (nowDate : ℤ) (date? : Option ℤ)
      (exercises : List ExerciseRec) (notes? : Option String)
      (workoutType? : Option String) (weightUnit? : Option String)
      (duration? : Option ℤ) (caloriesBurned? : Option ℚ)
  | update (wid : ℕ) (p : UpdatePatch)
  | delete (wid : ℕ)

/-- Dispatch one operation on the user's workout collection. -/
def stepOp (s : List Workout) : WOp → List Workout × ℕ
  | WOp.start newId nowDate nowMs date? wt? wu? =>
    startOp newId nowDate nowMs date? wt? wu? s
  | WOp.pause wid nowMs => pauseOp wid nowMs s
  | WOp.resume wid nowMs => resumeOp wid nowMs s
  | WOp.endWorkout wid nowMs => endOp wid nowMs s
  | WOp.create newId nowDate date? exs notes? wt? wu? dur? cal? =>
    createOp newId nowDate date? exs notes? wt? wu? dur? cal? s
  | WOp.update wid p => updateOp wid p s
  | WOp.delete wid => deleteOp wid s

/-- Sequential execution of a list of operations. -/
def runOps (s : List Workout) (ops : List WOp) : List Workout :=
  ops.foldl (fun s' op => (stepOp s' op).1) s

/-- The spec's Bench Press example: sets (10 reps, 80) and (8 reps, 85). -/
def exBench : ExerciseRec :=
  { name := "Bench Press"
    muscleGroup := none
    equipment := none
    sets := [{ reps := 10, weight := 80, restTime := none, rpe := none,
               completed := true },
             { reps := 8, weight := 85, restTime := none, rpe := none,
               completed := true }]
    order := 0 }

/-- The occurrence stream GET /prs iterates: every (workout date, exercise)
pair of the completed workouts in ascending date order. -/
def occsOf (ws : List Workout) : List (ℤ × ExerciseRec) :=
  (prsQuery ws).flatMap (fun w => w.exercises.map (fun e => (w.date, e)))

/-- The occurrences of exercise name n admitted by the request filter. -/
def occFilter (exName? : Option String) (n : String)
    (occs : List (ℤ × ExerciseRec)) : List (ℤ × ExerciseRec) :=
  occs.filter (fun de => includeExercise exName? de.2 && de.2.name == n)

/-- pr stores the running personal records of the occurrence list l: each
of maxWeight, maxReps and maxVolume bounds every occurrence and is
attained by one whose date is the stored date. -/
def PrChar (l : List (ℤ × ExerciseRec)) (pr : PrRec) : Prop :=
  (∀ de ∈ l, exMaxWeight de.2 ≤ pr.maxWeight)
  ∧ (∃ de ∈ l, exMaxWeight de.2 = pr.maxWeight ∧ pr.maxWeightDate = de.1)
  ∧ (∀ de ∈ l, exMaxReps de.2 ≤ pr.maxReps)
  ∧ (∃ de ∈ l, exMaxReps de.2 = pr.maxReps ∧ pr.maxRepsDate = de.1)
  ∧ (∀ de ∈ l, exVolume de.2 ≤ pr.maxVolume)
  ∧ (∃ de ∈ l, exVolume de.2 = pr.maxVolume ∧ pr.maxVolumeDate = de.1)

/-- A set with only reps and weight given, the remaining fields at their
schema defaults. -/
def mkSet (r w : ℚ) : SetRec :=
  { reps := r, weight := w, restTime := none, rpe := none, completed := true }

/-- A Squat exercise with the given sets. -/
def mkSquat (sets : List SetRec) : ExerciseRec :=
  { name := "Squat", muscleGroup := none, equipment := none, sets := sets,
    order := 0 }

/-- A completed single-exercise workout on day d. -/
def mkWorkout (i : ℕ) (d : ℤ) (e : ExerciseRec) : Workout :=
  { id := i
    date := d
    status := WStatus.completed
    startTime := none
    endTime := none
    duration := 0
    pausedDuration := 0
    pausedAt := none
    exercises := [e]
    notes := ""
    workoutType := none
    weightUnit := "kg"
    caloriesBurned := none }

/-- Day-0 Squat workout with one set of 10 reps at weight 10 (volume 100). -/
def wVolA : Workout := mkWorkout 0 0 (mkSquat [mkSet 10 10])

/-- Day-1 Squat workout with two sets of 8 reps at weight 8 (volume 128,
the best-ever volume, with max weight and reps below the stored records). -/
def wVolB : Workout := mkWorkout 1 1 (mkSquat [mkSet 8 8, mkSet 8 8])

/-- The spec's PR example, first workout: Squat maxWeight 100. -/
def wPr1 : Workout := mkWorkout 0 0 (mkSquat [mkSet 5 100])

/-- The spec's PR example, second workout: Squat maxWeight 110. -/
def wPr2 : Workout := mkWorkout 1 1 (mkSquat [mkSet 5 110])

/-- The spec's PR example, third workout: Squat maxWeight 100 again (and
fewer reps, so no dimension reaches its stored record). -/
def wPr3 : Workout := mkWorkout 2 2 (mkSquat [mkSet 4 100])

/-- A concrete in-progress workout used by witnesses. -/
def demoActiveWorkout : Workout :=
  { id := 0
    date := 0
    status := WStatus.active
    startTime := some 0
    endTime := none
    duration := 0
    pausedDuration := 0
    pausedAt := none
    exercises := []
    notes := ""
    workoutType := none
    weightUnit := "kg"
    caloriesBurned := none }

theorem sortDesc_perm (l : List ℤ) : List.Perm (sortDesc l) l :=
  List.perm_insertionSort _ l

theorem mem_sortDesc {l : List ℤ} {x : ℤ} : x ∈ sortDesc l ↔ x ∈ l :=
  (sortDesc_perm l).mem_iff

theorem sortDesc_sorted_gt {l : List ℤ} (hl : l.Nodup) :
    (sortDesc l).Sorted (· > ·) := by
  have hs : (sortDesc l).Sorted (fun a b => b ≤ a) := List.sorted_insertionSort _ l
  have hnd : (sortDesc l).Nodup := ((sortDesc_perm l).nodup_iff).mpr hl
  exact (hs.and hnd).imp (fun h => lt_of_le_of_ne h.1 (Ne.symm h.2))

theorem le_head_of_sorted_gt {d : ℤ} {rest : List ℤ}
    (hs : (d :: rest).Sorted (· > ·)) : ∀ x ∈ d :: rest, x ≤ d := by
  intro x hx
  rcases List.mem_cons.mp hx with h | h
  · exact le_of_eq h
  · exact le_of_lt ((List.sorted_cons.mp hs).1 x h)

theorem walkCount_mem {rest : List ℤ} {c : ℤ}
    (hs : rest.Sorted (· > ·)) (hle : ∀ x ∈ rest, x ≤ c) :
    ∀ j : ℕ, j < walkCount c rest → c - j ∈ rest := by
  induction rest generalizing c with
  | nil => simp [walkCount]
  | cons x rest ih =>
    intro j hj
    rw [walkCount] at hj
    by_cases hx : x = c
    · subst hx
      rw [if_pos rfl] at hj
      match j with
      | 0 => simp
      | j + 1 =>
        have hrest : rest.Sorted (· > ·) := (List.sorted_cons.mp hs).2
        have hle' : ∀ y ∈ rest, y ≤ x - 1 := by
          intro y hy
          have : y < x := (List.sorted_cons.mp hs).1 y hy
          omega
        have hmem := ih hrest hle' j (by omega)
        refine List.mem_cons_of_mem x ?_
        have heq : x - ((j + 1 : ℕ) : ℤ) = (x - 1) - (j : ℕ) := by push_cast; ring
        rw [heq]
        exact hmem
    · rw [if_neg hx] at hj
      omega

theorem walkCount_gap {rest : List ℤ} {c : ℤ}
    (hs : rest.Sorted (· > ·)) (hle : ∀ x ∈ rest, x ≤ c) :
    c - (walkCount c rest : ℤ) ∉ rest := by
  induction rest generalizing c with
  | nil => simp
  | cons x rest ih =>
    rw [walkCount]
    by_cases hx : x = c
    · subst hx
      rw [if_pos rfl]
      intro hmem
      have hrest : rest.Sorted (· > ·) := (List.sorted_cons.mp hs).2
      have hle' : ∀ y ∈ rest, y ≤ x - 1 := by
        intro y hy
        have : y < x := (List.sorted_cons.mp hs).1 y hy
        omega
      have hgap := ih hrest hle'
      rcases List.mem_cons.mp hmem with h | h
      · omega
      · have heq : x - ((1 + walkCount (x - 1) rest : ℕ) : ℤ) =
            (x - 1) - (walkCount (x - 1) rest : ℤ) := by push_cast; ring
        rw [heq] at h
        exact hgap h
    · rw [if_neg hx]
      intro hmem
      rcases List.mem_cons.mp hmem with h | h
      · exact hx (by omega)
      · have hlt : x > c - ((0 : ℕ) : ℤ) := (List.sorted_cons.mp hs).1 _ h
        have hxle : x ≤ c := hle x (List.mem_cons_self x rest)
        omega

theorem head_run {d : ℤ} {rest : List ℤ} (hs : (d :: rest).Sorted (· > ·)) :
    ∀ j : ℕ, j < 1 + walkCount (d - 1) rest → d - (j : ℤ) ∈ d :: rest := by
  intro j hj
  match j with
  | 0 => simp
  | j + 1 =>
    have hrest : rest.Sorted (· > ·) := (List.sorted_cons.mp hs).2
    have hle : ∀ x ∈ rest, x ≤ d - 1 := by
      intro x hx
      have : x < d := (List.sorted_cons.mp hs).1 x hx
      omega
    have hmem := walkCount_mem hrest hle j (by omega)
    refine List.mem_cons_of_mem d ?_
    have heq : d - ((j + 1 : ℕ) : ℤ) = (d - 1) - (j : ℕ) := by push_cast; ring
    rw [heq]
    exact hmem

theorem head_gap {d : ℤ} {rest : List ℤ} (hs : (d :: rest).Sorted (· > ·)) :
    d - ((1 + walkCount (d - 1) rest : ℕ) : ℤ) ∉ d :: rest := by
  have hrest : rest.Sorted (· > ·) := (List.sorted_cons.mp hs).2
  have hle : ∀ x ∈ rest, x ≤ d - 1 := by
    intro x hx
    have : x < d := (List.sorted_cons.mp hs).1 x hx
    omega
  have hgap := walkCount_gap hrest hle
  intro hmem
  rcases List.mem_cons.mp hmem with h | h
  · omega
  · have heq : d - ((1 + walkCount (d - 1) rest : ℕ) : ℤ) =
        (d - 1) - (walkCount (d - 1) rest : ℤ) := by push_cast; ring
    rw [heq] at h
    exact hgap h

theorem sortDesc_head_eq_max {l : List ℤ} {d m : ℤ} {rest : List ℤ}
    (hl : l.Nodup) (heq : sortDesc l = d :: rest)
    (hm : m ∈ l) (hmax : ∀ x ∈ l, x ≤ m) : d = m := by
  have hs := sortDesc_sorted_gt hl
  rw [heq] at hs
  have hd : d ∈ l := mem_sortDesc.mp (heq ▸ List.mem_cons_self d rest)
  have hdm : d ≤ m := hmax d hd
  have hm' : m ∈ d :: rest := heq ▸ mem_sortDesc.mpr hm
  rcases List.mem_cons.mp hm' with h | h
  · omega
  · have : d > m := (List.sorted_cons.mp hs).1 m h
    omega

theorem habitAnalytics_currentStreak (habit : Habit) (today : ℤ) (tod days : ℕ) :
    (habitAnalytics habit today tod days).currentStreak =
      currentStreakOf today (sortDesc (completedDaysOf habit)) := rfl

theorem habitAnalytics_longestStreak (habit : Habit) (today : ℤ) (tod days : ℕ) :
    (habitAnalytics habit today tod days).longestStreak =
      longestStreakOf (sortDesc (completedDaysOf habit)) := rfl

/-- C1: for every habit whose completion records hold at most one record per
day, the analytics currentStreak is 0 when there is no completed record or
when the most recent completed day m is neither today nor yesterday; when m
is today or yesterday, currentStreak is the count of consecutive completed
days walking backward from m until a gap: every day m, m-1, ...,
m-(currentStreak-1) is completed and day m-currentStreak is not. -/
theorem C1_currentStreak (habit : Habit) (today : ℤ) (tod days : ℕ)
    (hnd : (completedDaysOf habit).Nodup) :
    (completedDaysOf habit = [] →
      (habitAnalytics habit today tod days).currentStreak = 0)
    ∧ (∀ m : ℤ, m ∈ completedDaysOf habit →
        (∀ x ∈ completedDaysOf habit, x ≤ m) → m ≠ today → m ≠ today - 1 →
        (habitAnalytics habit today tod days).currentStreak = 0)
    ∧ (∀ m : ℤ, m ∈ completedDaysOf habit →
        (∀ x ∈ completedDaysOf habit, x ≤ m) → (m = today ∨ m = today - 1) →
        1 ≤ (habitAnalytics habit today tod days).currentStreak
        ∧ (∀ j : ℕ, j < (habitAnalytics habit today tod days).currentStreak →
            m - (j : ℤ) ∈ completedDaysOf habit)
        ∧ m - ((habitAnalytics habit today tod days).currentStreak : ℤ) ∉
            completedDaysOf habit) := by
  rw [habitAnalytics_currentStreak]
  refine ⟨?_, ?_, ?_⟩
  · intro hnil
    rw [show sortDesc (completedDaysOf habit) = [] by rw [hnil]; rfl, currentStreakOf]
  · intro m hm hmax hne₁ hne₂
    cases hL : sortDesc (completedDaysOf habit) with
    | nil => rw [currentStreakOf]
    | cons d rest =>
      have hd : d = m := sortDesc_head_eq_max hnd hL hm hmax
      rw [currentStreakOf]
      rw [if_neg]
      rw [hd]
      push_neg
      exact ⟨hne₁, hne₂⟩
  · intro m hm hmax hc
    cases hL : sortDesc (completedDaysOf habit) with
    | nil =>
      exfalso
      have hmem : m ∈ sortDesc (completedDaysOf habit) := mem_sortDesc.mpr hm
      rw [hL] at hmem
      exact List.not_mem_nil m hmem
    | cons d rest =>
      have hd : d = m := sortDesc_head_eq_max hnd hL hm hmax
      subst hd
      have hs : (d :: rest).Sorted (· > ·) := hL ▸ sortDesc_sorted_gt hnd
      rw [currentStreakOf, if_pos hc]
      refine ⟨by omega, ?_, ?_⟩
      · intro j hj
        have hmem : d - (j : ℤ) ∈ sortDesc (completedDaysOf habit) := by
          rw [hL]
          exact head_run hs j hj
        exact mem_sortDesc.mp hmem
      · intro hmem
        have hmem' : d - ((1 + walkCount (d - 1) rest : ℕ) : ℤ) ∈
            sortDesc (completedDaysOf habit) := mem_sortDesc.mpr hmem
        rw [hL] at hmem'
        exact head_gap hs hmem'

/-- C1 witness: a habit whose only completion is two days before today has
currentStreak 0. -/
theorem C1_currentStreak_witness :
    (completedDaysOf ⟨-2, GoalType.yesNo, [⟨-2, true, none⟩]⟩).Nodup
    ∧ (habitAnalytics ⟨-2, GoalType.yesNo, [⟨-2, true, none⟩]⟩ 0 0 30).currentStreak
        = 0 :=
  ⟨by decide,
   (C1_currentStreak ⟨-2, GoalType.yesNo, [⟨-2, true, none⟩]⟩ 0 0 30
      (by decide)).2.1 (-2) (by decide) (by decide) (by decide) (by decide)⟩

theorem runsMax_nil : runsMax [] = 0 := by
  rw [runsMax]

theorem runsMax_cons (d : ℤ) (rest : List ℤ) :
    runsMax (d :: rest) = max (1 + walkCount (d - 1) rest)
      (runsMax (rest.drop (walkCount (d - 1) rest))) := by
  rw [runsMax]

theorem walkCount_take_gt {rest : List ℤ} {c : ℤ}
    (hs : rest.Sorted (· > ·)) (hle : ∀ x ∈ rest, x ≤ c) :
    ∀ x ∈ rest.take (walkCount c rest), c - (walkCount c rest : ℤ) < x := by
  induction rest generalizing c with
  | nil => simp
  | cons x rest ih =>
    rw [walkCount]
    by_cases hx : x = c
    · subst hx
      rw [if_pos rfl]
      have hcomm : 1 + walkCount (x - 1) rest = walkCount (x - 1) rest + 1 :=
        Nat.add_comm _ _
      rw [hcomm, List.take_succ_cons]
      intro y hy
      rcases List.mem_cons.mp hy with h | h
      · push_cast
        omega
      · have hrest : rest.Sorted (· > ·) := (List.sorted_cons.mp hs).2
        have hle' : ∀ z ∈ rest, z ≤ x - 1 := by
          intro z hz
          have : z < x := (List.sorted_cons.mp hs).1 z hz
          omega
        have := ih hrest hle' y h
        push_cast
        push_cast at this
        omega
    · rw [if_neg hx]
      simp

theorem walkCount_drop_lt {rest : List ℤ} {c : ℤ}
    (hs : rest.Sorted (· > ·)) (hle : ∀ x ∈ rest, x ≤ c) :
    ∀ x ∈ rest.drop (walkCount c rest), x < c - (walkCount c rest : ℤ) := by
  induction rest generalizing c with
  | nil => simp
  | cons x rest ih =>
    rw [walkCount]
    by_cases hx : x = c
    · subst hx
      rw [if_pos rfl]
      have hcomm : 1 + walkCount (x - 1) rest = walkCount (x - 1) rest + 1 :=
        Nat.add_comm _ _
      rw [hcomm, List.drop_succ_cons]
      intro y hy
      have hrest : rest.Sorted (· > ·) := (List.sorted_cons.mp hs).2
      have hle' : ∀ z ∈ rest, z ≤ x - 1 := by
        intro z hz
        have : z < x := (List.sorted_cons.mp hs).1 z hz
        omega
      have := ih hrest hle' y hy
      push_cast
      push_cast at this
      omega
    · rw [if_neg hx]
      intro y hy
      rcases List.mem_cons.mp (by simpa using hy) with h | h
      · have : x ≤ c := hle x (List.mem_cons_self x rest)
        push_cast
        omega
      · have : y < x := (List.sorted_cons.mp hs).1 y h
        have : x ≤ c := hle x (List.mem_cons_self x rest)
        push_cast
        omega

theorem longestAux_eq : ∀ (rest : List ℤ) (prev : ℤ) (temp best : ℕ),
    (prev :: rest).Sorted (· > ·) →
    longestAux prev temp best rest =
      max best (max (temp + walkCount (prev - 1) rest)
        (runsMax (rest.drop (walkCount (prev - 1) rest)))) := by
  intro rest
  induction rest with
  | nil =>
    intro prev temp best _
    simp [longestAux, walkCount, runsMax_nil]
  | cons x rest ih =>
    intro prev temp best hs
    have htail : (x :: rest).Sorted (· > ·) := (List.sorted_cons.mp hs).2
    rw [longestAux]
    by_cases hx : prev - x = 1
    · rw [if_pos hx]
      rw [ih x (temp + 1) best htail]
      have hxc : x = prev - 1 := by omega
      rw [show walkCount (prev - 1) (x :: rest) = 1 + walkCount (x - 1) rest from by
        rw [walkCount, if_pos hxc, show prev - 1 - 1 = x - 1 from by omega]]
      have hdrop : (x :: rest).drop (1 + walkCount (x - 1) rest) =
          rest.drop (walkCount (x - 1) rest) := by
        rw [Nat.add_comm, List.drop_succ_cons]
      rw [hdrop]
      have harith : temp + 1 + walkCount (x - 1) rest =
          temp + (1 + walkCount (x - 1) rest) := by omega
      rw [harith]
    · rw [if_neg hx]
      rw [ih x 1 (max best temp) htail]
      have hxc : x ≠ prev - 1 := by
        intro h
        omega
      rw [show walkCount (prev - 1) (x :: rest) = 0 from by
        rw [walkCount, if_neg hxc]]
      simp only [Nat.add_zero, List.drop_zero]
      rw [runsMax_cons]
      rw [Nat.max_assoc]

theorem longestStreakOf_eq_runsMax {l : List ℤ} (hs : l.Sorted (· > ·)) :
    longestStreakOf l = runsMax l := by
  cases l with
  | nil => simp [longestStreakOf, runsMax_nil]
  | cons d rest =>
    rw [longestStreakOf, longestAux_eq rest d 1 1 hs, runsMax_cons]
    have h1 : 1 ≤ max (1 + walkCount (d - 1) rest)
        (runsMax (rest.drop (walkCount (d - 1) rest))) :=
      le_trans (by omega) (le_max_left _ _)
    exact max_eq_right h1

theorem runsMax_le_aux : ∀ (n : ℕ) (l : List ℤ), l.length ≤ n →
    l.Sorted (· > ·) → ∀ e ∈ l, ∀ k : ℕ,
    (∀ j : ℕ, j < k → e - (j : ℤ) ∈ l) → k ≤ runsMax l := by
  intro n
  induction n with
  | zero =>
    intro l hlen _ e he
    rw [List.length_eq_zero.mp (Nat.le_zero.mp hlen)] at he
    exact absurd he (List.not_mem_nil e)
  | succ n ih =>
    intro l hlen hs e he k hrun
    match l, he with
    | d :: rest, he =>
      have htail : rest.Sorted (· > ·) := (List.sorted_cons.mp hs).2
      have hle' : ∀ x ∈ rest, x ≤ d - 1 := by
        intro x hx
        have : x < d := (List.sorted_cons.mp hs).1 x hx
        omega
      have hgap := head_gap hs
      have hde : e ≤ d := le_head_of_sorted_gt hs e he
      rw [runsMax_cons]
      by_cases hcase : (d - 1 : ℤ) - (walkCount (d - 1) rest : ℤ) < e
      · -- e lies in the initial run segment; its run is blocked by the gap
        have hiN : (d - e).toNat ≤ walkCount (d - 1) rest := by omega
        have hklt : k ≤ 1 + walkCount (d - 1) rest - (d - e).toNat := by
          by_contra hk
          push_neg at hk
          have hj := hrun (1 + walkCount (d - 1) rest - (d - e).toNat) hk
          have heq : e - ((1 + walkCount (d - 1) rest - (d - e).toNat : ℕ) : ℤ) =
              d - ((1 + walkCount (d - 1) rest : ℕ) : ℤ) := by
            push_cast
            omega
          rw [heq] at hj
          exact hgap hj
        exact le_trans hklt (le_trans (by omega) (le_max_left _ _))
      · -- e lies strictly below the gap, hence inside the dropped suffix
        push_neg at hcase
        have hdropmem : ∀ y : ℤ, y ∈ d :: rest →
            y ≤ (d - 1 : ℤ) - (walkCount (d - 1) rest : ℤ) →
            y ∈ rest.drop (walkCount (d - 1) rest) := by
          intro y hy hylow
          rcases List.mem_cons.mp hy with h | h
          · omega
          · rw [← List.take_append_drop (walkCount (d - 1) rest) rest] at h
            rcases List.mem_append.mp h with h | h
            · have := walkCount_take_gt htail hle' y h
              omega
            · exact h
          -- done
        have he' : e ∈ rest.drop (walkCount (d - 1) rest) := hdropmem e he hcase
        have hrun' : ∀ j : ℕ, j < k → e - (j : ℤ) ∈ rest.drop (walkCount (d - 1) rest) := by
          intro j hj
          refine hdropmem _ (hrun j hj) ?_
          omega
        have hlen' : (rest.drop (walkCount (d - 1) rest)).length ≤ n := by
          have := List.length_drop (walkCount (d - 1) rest) rest
          simp only [List.length_cons] at hlen
          omega
        have hs' : (rest.drop (walkCount (d - 1) rest)).Sorted (· > ·) :=
          List.Pairwise.sublist (List.drop_sublist _ rest) htail
        exact le_trans (ih _ hlen' hs' e he' k hrun') (le_max_right _ _)

theorem runsMax_exists_aux : ∀ (n : ℕ) (l : List ℤ), l.length ≤ n →
    l.Sorted (· > ·) → l ≠ [] →
    1 ≤ runsMax l ∧ ∃ e ∈ l, ∀ j : ℕ, j < runsMax l → e - (j : ℤ) ∈ l := by
  intro n
  induction n with
  | zero =>
    intro l hlen _ hne
    exact absurd (List.length_eq_zero.mp (by omega)) hne
  | succ n ih =>
    intro l hlen hs hne
    match l, hne with
    | d :: rest, _ =>
      have htail : rest.Sorted (· > ·) := (List.sorted_cons.mp hs).2
      rw [runsMax_cons]
      rcases le_or_lt (runsMax (rest.drop (walkCount (d - 1) rest)))
          (1 + walkCount (d - 1) rest) with h | h
      · rw [max_eq_left h]
        refine ⟨by omega, d, List.mem_cons_self d rest, ?_⟩
        intro j hj
        exact head_run hs j hj
      · rw [max_eq_right (le_of_lt h)]
        have hne' : rest.drop (walkCount (d - 1) rest) ≠ [] := by
          intro hnil
          rw [hnil, runsMax_nil] at h
          omega
        have hlen' : (rest.drop (walkCount (d - 1) rest)).length ≤ n := by
          have := List.length_drop (walkCount (d - 1) rest) rest
          simp only [List.length_cons] at hlen
          omega
        have hs' : (rest.drop (walkCount (d - 1) rest)).Sorted (· > ·) :=
          List.Pairwise.sublist (List.drop_sublist _ rest) htail
        obtain ⟨h1, e, he, hrun⟩ := ih _ hlen' hs' hne'
        have hsub : ∀ y : ℤ, y ∈ rest.drop (walkCount (d - 1) rest) → y ∈ d :: rest :=
          fun y hy => List.mem_cons_of_mem d ((List.drop_sublist _ rest).subset hy)
        exact ⟨by omega, e, hsub e he, fun j hj => hsub _ (hrun j hj)⟩

/-- C2: for every habit whose completion records hold at most one record per
day, the analytics longestStreak is the maximum run length of
consecutive-day completed records across the entire history (in particular
independent of the lookback window parameter, over which the statement is
universally quantified): some completed day e starts a backward run of
longestStreak consecutive completed days, and no completed day starts a
longer one.  In particular, for completions on days D, D-1, D-2 and none
before, currentStreak and longestStreak are both 3 when today is D. -/
theorem C2_longestStreak (habit : Habit) (today : ℤ) (tod days : ℕ)
    (hnd : (completedDaysOf habit).Nodup) :
    (completedDaysOf habit = [] →
      (habitAnalytics habit today tod days).longestStreak = 0)
    ∧ (completedDaysOf habit ≠ [] →
        1 ≤ (habitAnalytics habit today tod days).longestStreak
        ∧ (∃ e ∈ completedDaysOf habit,
            ∀ j : ℕ, j < (habitAnalytics habit today tod days).longestStreak →
              e - (j : ℤ) ∈ completedDaysOf habit)
        ∧ (∀ e ∈ completedDaysOf habit, ∀ k : ℕ,
            (∀ j : ℕ, j < k → e - (j : ℤ) ∈ completedDaysOf habit) →
            k ≤ (habitAnalytics habit today tod days).longestStreak))
    ∧ ((habitAnalytics ⟨-2, GoalType.yesNo,
          [⟨0, true, none⟩, ⟨-1, true, none⟩, ⟨-2, true, none⟩]⟩ 0 0
          30).currentStreak = 3
        ∧ (habitAnalytics ⟨-2, GoalType.yesNo,
            [⟨0, true, none⟩, ⟨-1, true, none⟩, ⟨-2, true, none⟩]⟩ 0 0
            30).longestStreak = 3) := by
  rw [habitAnalytics_longestStreak]
  have hsorted := sortDesc_sorted_gt hnd
  rw [longestStreakOf_eq_runsMax hsorted]
  refine ⟨?_, ?_, by decide, by decide⟩
  · intro hnil
    rw [show sortDesc (completedDaysOf habit) = [] by rw [hnil]; rfl, runsMax_nil]
  · intro hne
    have hne' : sortDesc (completedDaysOf habit) ≠ [] := by
      intro hnil
      have hper := sortDesc_perm (completedDaysOf habit)
      rw [hnil] at hper
      exact hne hper.symm.eq_nil
    obtain ⟨h1, e, he, hrun⟩ :=
      runsMax_exists_aux (sortDesc (completedDaysOf habit)).length _ le_rfl
        hsorted hne'
    refine ⟨h1, ⟨e, mem_sortDesc.mp he, fun j hj => mem_sortDesc.mp (hrun j hj)⟩, ?_⟩
    intro f hf k hkrun
    exact runsMax_le_aux (sortDesc (completedDaysOf habit)).length _ le_rfl hsorted
      f (mem_sortDesc.mpr hf) k (fun j hj => mem_sortDesc.mpr (hkrun j hj))

/-- C2 witness: for the habit completed on days 0, -1, -2 with today = 0,
the theorem yields a positive longest streak; its concrete conjunct pins
both streaks to 3. -/
theorem C2_longestStreak_witness :
    (completedDaysOf ⟨-2, GoalType.yesNo,
      [⟨0, true, none⟩, ⟨-1, true, none⟩, ⟨-2, true, none⟩]⟩).Nodup
    ∧ 1 ≤ (habitAnalytics ⟨-2, GoalType.yesNo,
        [⟨0, true, none⟩, ⟨-1, true, none⟩, ⟨-2, true, none⟩]⟩ 0 0
        30).longestStreak :=
  ⟨by decide,
   ((C2_longestStreak ⟨-2, GoalType.yesNo,
      [⟨0, true, none⟩, ⟨-1, true, none⟩, ⟨-2, true, none⟩]⟩ 0 0 30
      (by decide)).2.1 (by decide)).1⟩

theorem habitAnalytics_completionRate (habit : Habit) (today : ℤ) (tod days : ℕ) :
    (habitAnalytics habit today tod days).completionRate =
      jsRound2 (if 0 < totalDaysInRange today tod days then
        ((((windowCompletions habit today days).filter (·.completed)).length : ℚ) /
          ((totalDaysInRange today tod days : ℤ) : ℚ)) * 100
      else 0) := rfl

theorem totalDaysInRange_eval (today : ℤ) (tod days : ℕ) (h : tod < dayMs) :
    totalDaysInRange today tod days = (days : ℤ) + (if tod = 0 then 0 else 1) := by
  unfold totalDaysInRange
  rw [show ((today * dayMs + tod) - (today - (days : ℤ)) * dayMs : ℤ) =
      (days : ℤ) * dayMs + tod from by ring]
  rw [dayMs] at h ⊢
  by_cases ht : tod = 0
  · subst ht
    rw [if_pos rfl]
    push_cast
    rw [add_zero, add_zero, mul_div_assoc]
    norm_num
  · rw [if_neg ht]
    rw [Int.ceil_eq_iff]
    have h0 : (0 : ℚ) < tod := by exact_mod_cast Nat.pos_of_ne_zero ht
    have h1 : (tod : ℚ) ≤ 86400000 := by exact_mod_cast le_of_lt h
    constructor
    · push_cast
      rw [lt_div_iff₀ (by norm_num : (0 : ℚ) < 86400000)]
      ring_nf
      linarith
    · push_cast
      rw [div_le_iff₀ (by norm_num : (0 : ℚ) < 86400000)]
      ring_nf
      linarith

/-- C3 counterexample: a habit started 5 days ago with a single completion
today, asked at noon with the default 30-day window.  The route reports
round(100/31) = 3.23 percent, while the specification's wording (divide by
elapsed days since the habit's start date within the window, here 5 days)
gives 20 percent. -/
theorem C3_completionRate_counterexample :
    (habitAnalytics ⟨-5, GoalType.yesNo, [⟨0, true, none⟩]⟩ 0 43200000
        30).completionRate = 323 / 100
    ∧ specCompletionRate ⟨-5, GoalType.yesNo, [⟨0, true, none⟩]⟩ 0 30 = 20
    ∧ (habitAnalytics ⟨-5, GoalType.yesNo, [⟨0, true, none⟩]⟩ 0 43200000
        30).completionRate ≠
      specCompletionRate ⟨-5, GoalType.yesNo, [⟨0, true, none⟩]⟩ 0 30 := by
  have hceil : totalDaysInRange 0 43200000 30 = 31 := by
    rw [totalDaysInRange_eval 0 43200000 30 (by norm_num [dayMs])]
    norm_num
  have hlen : (((windowCompletions ⟨-5, GoalType.yesNo, [⟨0, true, none⟩]⟩ 0
      30).filter (·.completed)).length : ℚ) = 1 := by
    norm_num [windowCompletions, List.filter]
  have hrate : (habitAnalytics ⟨-5, GoalType.yesNo, [⟨0, true, none⟩]⟩ 0 43200000
      30).completionRate = 323 / 100 := by
    rw [habitAnalytics_completionRate, hceil, if_pos (by norm_num), hlen, jsRound2]
    norm_num
  have hspec : specCompletionRate ⟨-5, GoalType.yesNo, [⟨0, true, none⟩]⟩ 0 30
      = 20 := by
    rw [specCompletionRate]
    norm_num [List.filter, jsRound2]
  refine ⟨hrate, hspec, ?_⟩
  rw [hrate, hspec]
  norm_num

/-- C3 (amended): the analytics completionRate is the count of completed
records within the window divided by Math.ceil of the elapsed time from the
window-start midnight (today - days) to now, i.e. by days (plus one when
the current time is past midnight), as a percentage rounded to two
decimals; the habit's start date is not consulted. -/
theorem C3_completionRate (habit : Habit) (today : ℤ) (tod days : ℕ)
    (htod : tod < dayMs) :
    (0 < days + (if tod = 0 then 0 else 1) →
      (habitAnalytics habit today tod days).completionRate =
        jsRound2 (((((windowCompletions habit today days).filter
            (·.completed)).length : ℚ) /
          ((days + (if tod = 0 then 0 else 1) : ℕ) : ℚ)) * 100))
    ∧ (∀ s' : ℤ, ∀ g' : GoalType,
        (habitAnalytics ⟨s', g', habit.completions⟩ today tod days).completionRate =
          (habitAnalytics habit today tod days).completionRate) := by
  constructor
  · intro hpos
    rw [habitAnalytics_completionRate,
      totalDaysInRange_eval today tod days htod]
    by_cases ht : tod = 0
    · simp only [if_pos ht] at hpos ⊢
      rw [if_pos (by omega)]
      congr 1
    · simp only [if_neg ht] at hpos ⊢
      rw [if_pos (by omega)]
      congr 1
  · intro s' g'
    rfl

/-- C3 witness: instantiates the amended completion-rate formula for a
habit with one completion today, today = 0, clock at noon, 30-day window:
the rate is round(100/31) = 3.23. -/
theorem C3_completionRate_witness :
    43200000 < dayMs
    ∧ 0 < 30 + (if 43200000 = 0 then 0 else 1)
    ∧ (habitAnalytics ⟨-5, GoalType.yesNo, [⟨0, true, none⟩]⟩ 0 43200000
        30).completionRate =
      jsRound2 (((((windowCompletions ⟨-5, GoalType.yesNo, [⟨0, true, none⟩]⟩ 0
          30).filter (·.completed)).length : ℚ) /
        ((30 + (if (43200000 : ℕ) = 0 then 0 else 1) : ℕ) : ℚ)) * 100) :=
  ⟨by norm_num [dayMs], by norm_num,
   (C3_completionRate ⟨-5, GoalType.yesNo, [⟨0, true, none⟩]⟩ 0 43200000 30
      (by norm_num [dayMs])).1 (by norm_num)⟩

/-- C8: for a found habit with zero completion records the analytics
endpoint succeeds (ok, never an error), with completionRate 0,
currentStreak 0, longestStreak 0, and a heatmap of exactly 30 entries, one
per day for the trailing 30 days ending today, all flagged not-completed
with no value. -/
theorem C8_zero_completions (s : ℤ) (g : GoalType) (today : ℤ) (tod days : ℕ) :
    analyticsResponse (some ⟨s, g, []⟩) today tod days =
      Except.ok (habitAnalytics ⟨s, g, []⟩ today tod days)
    ∧ (habitAnalytics ⟨s, g, []⟩ today tod days).completionRate = 0
    ∧ (habitAnalytics ⟨s, g, []⟩ today tod days).currentStreak = 0
    ∧ (habitAnalytics ⟨s, g, []⟩ today tod days).longestStreak = 0
    ∧ (habitAnalytics ⟨s, g, []⟩ today tod days).heatmapData.length = 30
    ∧ (∀ e ∈ (habitAnalytics ⟨s, g, []⟩ today tod days).heatmapData,
        e.completed = false ∧ e.value = none)
    ∧ (habitAnalytics ⟨s, g, []⟩ today tod days).heatmapData.map (·.date) =
        (List.range 30).map (fun (k : ℕ) => today - 29 + (k : ℤ)) := by
  have hheat : (habitAnalytics ⟨s, g, []⟩ today tod days).heatmapData =
      (List.range 30).map
        (fun (k : ℕ) => { date := today - (29 - (k : ℤ)), completed := false,
                          value := none : HeatEntry }) := rfl
  have h0 : jsRound2 0 = 0 := by
    rw [jsRound2]
    norm_num
  refine ⟨rfl, ?_, rfl, rfl, ?_, ?_, ?_⟩
  · rw [habitAnalytics_completionRate]
    rw [show windowCompletions ⟨s, g, []⟩ today days = [] from rfl]
    simp only [List.filter_nil, List.length_nil, Nat.cast_zero, zero_div,
      zero_mul, ite_self]
    exact h0
  · rw [hheat, List.length_map, List.length_range]
  · intro e he
    rw [hheat] at he
    obtain ⟨k, _, hk⟩ := List.mem_map.mp he
    rw [← hk]
    exact ⟨rfl, rfl⟩
  · rw [hheat, List.map_map]
    refine List.map_congr_left ?_
    intro k hk
    simp only [Function.comp_apply]
    ring

theorem completeRecord_date (g : GoalType) (v : Option ℚ) (c : CompletionRec) :
    (completeRecord g v c).date = c.date := rfl

theorem completeRecord_idem (g : GoalType) (v : Option ℚ) (c : CompletionRec) :
    completeRecord g v (completeRecord g v c) = completeRecord g v c := by
  unfold completeRecord
  by_cases h : g = GoalType.numeric ∧ v.isSome <;> simp [h]

theorem completeList_idem (g : GoalType) (v : Option ℚ) (d : ℤ) :
    ∀ l : List CompletionRec,
      completeList g v d (completeList g v d l) = completeList g v d l := by
  intro l
  induction l with
  | nil =>
    rw [completeList, completeList, if_pos rfl]
    unfold completeRecord
    by_cases h : g = GoalType.numeric ∧ v.isSome
    · simp [h, h.1]
    · rcases Decidable.em (g = GoalType.numeric) with hg | hg <;> simp [h, hg]
  | cons c rest ih =>
    rw [completeList]
    by_cases h : c.date = d
    · rw [if_pos h, completeList, if_pos (by rw [completeRecord_date]; exact h),
        completeRecord_idem]
    · rw [if_neg h, completeList, if_neg h, ih]

theorem completeList_countP_eq (g : GoalType) (v : Option ℚ) (d : ℤ) :
    ∀ l : List CompletionRec,
      (completeList g v d l).countP (fun c => c.date == d) =
        if l.countP (fun c => c.date == d) = 0 then 1
        else l.countP (fun c => c.date == d) := by
  intro l
  induction l with
  | nil => simp [completeList, List.countP_cons]
  | cons c rest ih =>
    rw [completeList]
    by_cases h : c.date = d
    · rw [if_pos h]
      simp only [List.countP_cons, completeRecord_date, h, beq_self_eq_true,
        if_true]
      rw [if_neg (by omega)]
    · rw [if_neg h]
      have hb : (c.date == d) = false := by
        simp [h]
      simp only [List.countP_cons, hb, if_false, Nat.add_zero]
      exact ih

theorem completeList_countP_ne (g : GoalType) (v : Option ℚ) (d d' : ℤ)
    (hne : d' ≠ d) : ∀ l : List CompletionRec,
      (completeList g v d l).countP (fun c => c.date == d') =
        l.countP (fun c => c.date == d') := by
  intro l
  induction l with
  | nil =>
    have hb : (d == d') = false := by
      simp
      omega
    simp [completeList, List.countP_cons, hb]
  | cons c rest ih =>
    rw [completeList]
    by_cases h : c.date = d
    · rw [if_pos h]
      simp only [List.countP_cons, completeRecord_date]
    · rw [if_neg h]
      simp only [List.countP_cons, ih]

/-- C6: POST /:id/complete is idempotent as a state transformer (the second
call updates the same record in place and changes nothing), and it
preserves the at-most-one-record-per-day invariant: on a habit satisfying
it, the result holds exactly one completion record for the completed date
and at most one for every date. -/
theorem C6_complete_idempotent (habit : Habit) (d : ℤ) (v : Option ℚ) :
    completeOp (completeOp habit d v) d v = completeOp habit d v
    ∧ (∀ d' : ℤ,
        habit.completions.countP (fun c => c.date == d') ≤ 1 →
        (completeOp habit d v).completions.countP (fun c => c.date == d') ≤ 1)
    ∧ (habit.completions.countP (fun c => c.date == d) ≤ 1 →
        (completeOp habit d v).completions.countP (fun c => c.date == d) = 1) := by
  refine ⟨?_, ?_, ?_⟩
  · show Habit.mk _ _ _ = Habit.mk _ _ _
    simp only [completeOp]
    rw [completeList_idem]
  · intro d' hle
    by_cases hd : d' = d
    · subst hd
      show (completeList habit.goalType v d' habit.completions).countP _ ≤ 1
      rw [completeList_countP_eq]
      split <;> omega
    · show (completeList habit.goalType v d habit.completions).countP _ ≤ 1
      rw [completeList_countP_ne habit.goalType v d d' hd]
      exact hle
  · intro hle
    show (completeList habit.goalType v d habit.completions).countP _ = 1
    rw [completeList_countP_eq]
    split <;> omega

/-- C6 witness: completing a fresh numeric habit for day 5 yields exactly
one record for day 5. -/
theorem C6_complete_idempotent_witness :
    (([] : List CompletionRec).countP (fun c => c.date == 5) ≤ 1)
    ∧ (completeOp ⟨0, GoalType.numeric, []⟩ 5 (some 3)).completions.countP
        (fun c => c.date == 5) = 1 :=
  ⟨by decide,
   (C6_complete_idempotent ⟨0, GoalType.numeric, []⟩ 5 (some 3)).2.2 (by decide)⟩

/-- C9 counterexample: in production mode the route-level catch still
attaches the underlying error message to the 500 response, contradicting
"attached in non-production modes only". -/
theorem C9_error_handling_counterexample :
    (routeCatchResponse Env.production ("database unavailable")).error =
      some ("database unavailable")
    ∧ Env.production ≠ Env.development :=
  ⟨rfl, by decide⟩

/-- C9 (amended): an unexpected error in a habit or workout route yields a
generic 500 response whose message field is the fixed text and whose error
field carries the underlying message in every mode, production included;
it is the global handler's stack trace, not the message, that is attached
in development mode only. -/
theorem C9_error_handling (env : Env) (msg stack : String)
    (status? : Option ℕ) (message? : Option String) :
    (routeCatchResponse env msg).status = 500
    ∧ (routeCatchResponse env msg).message = "Server error"
    ∧ (routeCatchResponse env msg).error = some msg
    ∧ (env = Env.development →
        (globalErrorResponse env status? message? stack).stack = some stack)
    ∧ (env ≠ Env.development →
        (globalErrorResponse env status? message? stack).stack = none) := by
  refine ⟨rfl, rfl, rfl, ?_, ?_⟩
  · intro h
    simp [globalErrorResponse, h]
  · intro h
    simp [globalErrorResponse, h]

/-- C9 witness: a production database failure keeps its message in the
route response while the global handler omits the stack. -/
theorem C9_error_handling_witness :
    (routeCatchResponse Env.production ("database unavailable")).error =
      some ("database unavailable")
    ∧ (globalErrorResponse Env.production none none ("trace")).stack = none :=
  ⟨(C9_error_handling Env.production ("database unavailable") ("trace")
      none none).2.2.1,
   (C9_error_handling Env.production ("database unavailable") ("trace")
      none none).2.2.2.2 (by decide)⟩

theorem updateFirst_decomp (q : Workout → Bool) (f : Workout → Workout) :
    ∀ (s : List Workout) (w₀ : Workout), s.find? q = some w₀ →
      ∃ s₁ s₂, s = s₁ ++ w₀ :: s₂ ∧ updateFirst q f s = s₁ ++ f w₀ :: s₂ := by
  intro s
  induction s with
  | nil => intro w₀ h; exact absurd h (by simp)
  | cons w rest ih =>
    intro w₀ h
    by_cases hq : q w
    · rw [List.find?_cons_of_pos _ hq] at h
      refine ⟨[], rest, ?_, ?_⟩
      · simp [(Option.some_inj.mp h).symm]
      · rw [updateFirst, if_pos hq]
        simp [(Option.some_inj.mp h).symm]
    · rw [List.find?_cons_of_neg _ hq] at h
      obtain ⟨s₁, s₂, hs, hu⟩ := ih w₀ h
      refine ⟨w :: s₁, s₂, by simp [hs], ?_⟩
      rw [updateFirst, if_neg hq, hu]
      simp

theorem removeFirst_countP_le (q p : Workout → Bool) :
    ∀ s : List Workout, (removeFirst q s).countP p ≤ s.countP p := by
  intro s
  induction s with
  | nil => simp [removeFirst]
  | cons w rest ih =>
    rw [removeFirst]
    by_cases hq : q w
    · rw [if_pos hq, List.countP_cons]
      omega
    · rw [if_neg hq, List.countP_cons, List.countP_cons]
      omega

theorem countP_updateFirst (q : Workout → Bool) (f : Workout → Workout)
    (p : Workout → Bool) (s : List Workout) (w₀ : Workout)
    (hf : s.find? q = some w₀) :
    (updateFirst q f s).countP p + (if p w₀ then 1 else 0) =
      s.countP p + (if p (f w₀) then 1 else 0) := by
  obtain ⟨s₁, s₂, hs, hu⟩ := updateFirst_decomp q f s w₀ hf
  rw [hu, hs, List.countP_append, List.countP_append, List.countP_cons,
    List.countP_cons]
  omega

theorem stepOp_preserves (s : List Workout) (op : WOp)
    (h : s.countP isActiveOrPaused ≤ 1) :
    (stepOp s op).1.countP isActiveOrPaused ≤ 1 := by
  cases op with
  | start newId nowDate nowMs date? wt? wu? =>
    rw [stepOp, startOp]
    by_cases hany : s.any isActiveOrPaused
    · rw [if_pos hany]
      exact h
    · rw [if_neg hany]
      have h0 : s.countP isActiveOrPaused = 0 := by
        rw [List.countP_eq_zero]
        intro a ha hpa
        exact hany (List.any_eq_true.mpr ⟨a, ha, hpa⟩)
      dsimp only
      rw [List.countP_append, h0]
      simp [isActiveOrPaused]
  | pause wid nowMs =>
    rw [stepOp, pauseOp]
    cases hf : s.find? (fun w => w.id == wid) with
    | none => exact h
    | some w =>
      dsimp only
      by_cases hw : w.status = WStatus.active
      · rw [if_pos hw]
        have heq := countP_updateFirst (fun w' => w'.id == wid) (pauseSave nowMs)
          isActiveOrPaused s w hf
        have h₁ : isActiveOrPaused w = true := by
          simp [isActiveOrPaused, hw]
        have h₂ : isActiveOrPaused (pauseSave nowMs w) = true := rfl
        rw [h₁, h₂] at heq
        simp only [if_pos rfl] at heq
        dsimp only
        omega
      · rw [if_neg hw]
        exact h
  | resume wid nowMs =>
    rw [stepOp, resumeOp]
    cases hf : s.find? (fun w => w.id == wid) with
    | none => exact h
    | some w =>
      dsimp only
      by_cases hw : w.status = WStatus.paused
      · rw [if_pos hw]
        have heq := countP_updateFirst (fun w' => w'.id == wid) (resumeSave nowMs)
          isActiveOrPaused s w hf
        have h₁ : isActiveOrPaused w = true := by
          simp [isActiveOrPaused, hw]
        have h₂ : isActiveOrPaused (resumeSave nowMs w) = true := rfl
        rw [h₁, h₂] at heq
        simp only [if_pos rfl] at heq
        dsimp only
        omega
      · rw [if_neg hw]
        exact h
  | endWorkout wid nowMs =>
    rw [stepOp, endOp]
    cases hf : s.find? (fun w => w.id == wid) with
    | none => exact h
    | some w =>
      dsimp only
      by_cases hw : w.status = WStatus.active ∨ w.status = WStatus.paused
      · rw [if_pos hw]
        have heq := countP_updateFirst (fun w' => w'.id == wid) (endSave nowMs)
          isActiveOrPaused s w hf
        have h₁ : isActiveOrPaused w = true := by
          rcases hw with hw | hw <;> simp [isActiveOrPaused, hw]
        have h₂ : isActiveOrPaused (endSave nowMs w) = false := rfl
        rw [h₁, h₂] at heq
        simp only [if_pos rfl] at heq
        simp only [Bool.false_eq_true, if_false] at heq
        dsimp only
        omega
      · rw [if_neg hw]
        exact h
  | create newId nowDate date? exs notes? wt? wu? dur? cal? =>
    rw [stepOp, createOp]
    by_cases hexs : exs.isEmpty
    · rw [if_pos hexs]
      exact h
    · rw [if_neg hexs]
      dsimp only
      rw [List.countP_append]
      simpa [isActiveOrPaused] using h
  | update wid p =>
    rw [stepOp, updateOp]
    cases hf : s.find? (fun w => w.id == wid) with
    | none => exact h
    | some w =>
      dsimp only
      by_cases hw : isActiveOrPaused w
      · rw [if_pos hw]
        exact h
      · rw [if_neg hw]
        have heq := countP_updateFirst (fun w' => w'.id == wid) (applyPatch p)
          isActiveOrPaused s w hf
        have h₂ : isActiveOrPaused (applyPatch p w) = isActiveOrPaused w := rfl
        rw [h₂] at heq
        have := Nat.add_right_cancel heq
        dsimp only
        omega
  | delete wid =>
    rw [stepOp, deleteOp]
    cases hf : s.find? (fun w => w.id == wid) with
    | none => exact h
    | some w =>
      exact le_trans (removeFirst_countP_le _ _ s) h

theorem runOps_preserves : ∀ (ops : List WOp) (s : List Workout),
    s.countP isActiveOrPaused ≤ 1 →
    (runOps s ops).countP isActiveOrPaused ≤ 1 := by
  intro ops
  induction ops with
  | nil => intro s h; exact h
  | cons op rest ih =>
    intro s h
    exact ih _ (stepOp_preserves s op h)

/-- C7: under sequential execution of start/pause/resume/end/create/update/
delete, a user with at most one active-or-paused workout keeps at most one
after any single operation and any sequence of operations; and the start
endpoint leaves the collection unchanged and answers 400 whenever an
active or paused workout exists. -/
theorem C7_single_active (s : List Workout)
    (hinv : s.countP isActiveOrPaused ≤ 1) :
    (∀ op : WOp, (stepOp s op).1.countP isActiveOrPaused ≤ 1)
    ∧ (∀ ops : List WOp, (runOps s ops).countP isActiveOrPaused ≤ 1)
    ∧ (∀ (newId : ℕ) (nowDate nowMs : ℤ) (date? : Option ℤ)
        (wt? wu? : Option String), s.any isActiveOrPaused = true →
        stepOp s (WOp.start newId nowDate nowMs date? wt? wu?) = (s, 400)) := by
  refine ⟨fun op => stepOp_preserves s op hinv,
    fun ops => runOps_preserves ops s hinv, ?_⟩
  intro newId nowDate nowMs date? wt? wu? hany
  rw [stepOp, startOp, if_pos hany]

/-- C7 witness: with one active workout in store, its invariant holds and a
second start is rejected with 400 leaving the store unchanged. -/
theorem C7_single_active_witness :
    ([demoActiveWorkout].countP isActiveOrPaused ≤ 1)
    ∧ stepOp [demoActiveWorkout] (WOp.start 1 0 0 none none none) =
        ([demoActiveWorkout], 400) :=
  ⟨by decide,
   (C7_single_active [demoActiveWorkout] (by decide)).2.2 1 0 0 none none none
     (by decide)⟩

theorem foldl_max_le_init : ∀ (xs : List ℚ) (x : ℚ), x ≤ xs.foldl max x := by
  intro xs
  induction xs with
  | nil => intro x; exact le_refl x
  | cons z zs ih =>
    intro x
    exact le_trans (le_max_left x z) (ih (max x z))

theorem foldl_max_le_mem : ∀ (xs : List ℚ) (x : ℚ), ∀ y ∈ xs, y ≤ xs.foldl max x := by
  intro xs
  induction xs with
  | nil => simp
  | cons z zs ih =>
    intro x y hy
    rcases List.mem_cons.mp hy with h | h
    · rw [h, List.foldl_cons]
      exact le_trans (le_max_right x z) (foldl_max_le_init zs (max x z))
    · rw [List.foldl_cons]
      exact ih (max x z) y h

theorem foldl_max_mem : ∀ (xs : List ℚ) (x : ℚ),
    xs.foldl max x = x ∨ xs.foldl max x ∈ xs := by
  intro xs
  induction xs with
  | nil => intro x; exact Or.inl rfl
  | cons z zs ih =>
    intro x
    rw [List.foldl_cons]
    rcases ih (max x z) with h | h
    · rcases max_choice x z with hm | hm
      · exact Or.inl (h.trans hm)
      · exact Or.inr (by rw [h, hm]; exact List.mem_cons_self z zs)
    · exact Or.inr (List.mem_cons_of_mem z h)

theorem maxOf_le {l : List ℚ} : ∀ y ∈ l, y ≤ maxOf l := by
  cases l with
  | nil => simp
  | cons x xs =>
    intro y hy
    rcases List.mem_cons.mp hy with h | h
    · rw [h, maxOf]
      exact foldl_max_le_init xs x
    · rw [maxOf]
      exact foldl_max_le_mem xs x y h

theorem maxOf_mem {l : List ℚ} (hl : l ≠ []) : maxOf l ∈ l := by
  cases l with
  | nil => exact absurd rfl hl
  | cons x xs =>
    rw [maxOf]
    rcases foldl_max_mem xs x with h | h
    · rw [h]
      exact List.mem_cons_self x xs
    · exact List.mem_cons_of_mem x h

theorem exVolume_eq_sum (e : ExerciseRec) :
    exVolume e = (e.sets.map (fun s => s.reps * s.weight)).sum := by
  have hfold : ∀ (l : List SetRec) (acc : ℚ),
      l.foldl (fun sum s => sum + s.reps * s.weight) acc =
        acc + (l.map (fun s => s.reps * s.weight)).sum := by
    intro l
    induction l with
    | nil => intro acc; simp
    | cons s rest ih =>
      intro acc
      rw [List.foldl_cons, ih, List.map_cons, List.sum_cons]
      ring
  rw [exVolume, hfold]
  simp

/-- C4 counterexample: for the spec's Bench Press sets [(10,80),(8,85)]
the route's estimated1RM is 85*(1+10/30) = 340/3 (maxReps is the maximum
reps over all sets, 10, taken independently of the max-weight set), not
the 85*(1+8/30) the claim asserts. -/
theorem C4_epley_counterexample :
    (progEntry 0 exBench).estimated1RM = 340 / 3
    ∧ (progEntry 0 exBench).estimated1RM ≠ 85 * (1 + 8 / 30) := by
  have h : (progEntry 0 exBench).estimated1RM = 340 / 3 := by
    norm_num [progEntry, epley1RM, exMaxWeight, exMaxReps, exBench, maxOf,
      List.foldl]
  refine ⟨h, ?_⟩
  rw [h]
  norm_num

/-- C4 (amended): each progression entry has totalVolume as the sum of
reps*weight over the occurrence's sets; maxWeight and maxReps are the
maxima over all sets taken independently (not paired within one set); when
both are positive, estimated1RM follows Epley (maxWeight unchanged at
maxReps 1, else maxWeight*(1+maxReps/30)), and it is 0 otherwise.  For the
Bench Press example, totalVolume is 1480 and estimated1RM is
85*(1+10/30) = 340/3. -/
theorem C4_progression_entry (date : ℤ) (e : ExerciseRec) :
    (progEntry date e).totalVolume = (e.sets.map (fun s => s.reps * s.weight)).sum
    ∧ (e.sets ≠ [] →
        (∀ s ∈ e.sets, s.weight ≤ (progEntry date e).maxWeight)
        ∧ (∃ s ∈ e.sets, (progEntry date e).maxWeight = s.weight)
        ∧ (∀ s ∈ e.sets, s.reps ≤ (progEntry date e).maxReps)
        ∧ (∃ s ∈ e.sets, (progEntry date e).maxReps = s.reps))
    ∧ (0 < (progEntry date e).maxWeight → 0 < (progEntry date e).maxReps →
        (progEntry date e).estimated1RM =
          if (progEntry date e).maxReps = 1 then (progEntry date e).maxWeight
          else (progEntry date e).maxWeight * (1 + (progEntry date e).maxReps / 30))
    ∧ (¬(0 < (progEntry date e).maxWeight ∧ 0 < (progEntry date e).maxReps) →
        (progEntry date e).estimated1RM = 0)
    ∧ (progEntry 0 exBench).totalVolume = 1480
    ∧ (progEntry 0 exBench).estimated1RM = 340 / 3 := by
  have hmw : (progEntry date e).maxWeight = exMaxWeight e := rfl
  have hmr : (progEntry date e).maxReps = exMaxReps e := rfl
  refine ⟨exVolume_eq_sum e, ?_, ?_, ?_, ?_, ?_⟩
  · intro hne
    have hlen : 0 < e.sets.length := List.length_pos.mpr hne
    have hwne : e.sets.map (·.weight) ≠ [] := by
      simpa using hne
    have hrne : e.sets.map (·.reps) ≠ [] := by
      simpa using hne
    refine ⟨?_, ?_, ?_, ?_⟩
    · intro s hs
      rw [hmw, exMaxWeight, if_pos hlen]
      exact maxOf_le _ (List.mem_map_of_mem _ hs)
    · rw [hmw, exMaxWeight, if_pos hlen]
      obtain ⟨s, hs, hval⟩ := List.mem_map.mp (maxOf_mem hwne)
      exact ⟨s, hs, hval.symm⟩
    · intro s hs
      rw [hmr, exMaxReps, if_pos hlen]
      exact maxOf_le _ (List.mem_map_of_mem _ hs)
    · rw [hmr, exMaxReps, if_pos hlen]
      obtain ⟨s, hs, hval⟩ := List.mem_map.mp (maxOf_mem hrne)
      exact ⟨s, hs, hval.symm⟩
  · intro hw hr
    rw [hmw] at hw
    rw [hmr] at hr
    show epley1RM (exMaxWeight e) (exMaxReps e) =
      if exMaxReps e = 1 then exMaxWeight e
      else exMaxWeight e * (1 + exMaxReps e / 30)
    rw [epley1RM, if_pos ⟨hw, hr⟩]
  · intro hcon
    rw [hmw, hmr] at hcon
    show epley1RM (exMaxWeight e) (exMaxReps e) = 0
    rw [epley1RM, if_neg hcon]
  · norm_num [progEntry, exVolume, exBench, List.foldl]
  · norm_num [progEntry, epley1RM, exMaxWeight, exMaxReps, exBench, maxOf,
      List.foldl]

/-- C4 witness: for the Bench Press exercise the theorem's hypotheses hold
(nonempty sets, positive maxima) and yield the Epley value. -/
theorem C4_progression_entry_witness :
    exBench.sets ≠ []
    ∧ 0 < (progEntry 0 exBench).maxWeight
    ∧ 0 < (progEntry 0 exBench).maxReps
    ∧ (∃ s ∈ exBench.sets, (progEntry 0 exBench).maxWeight = s.weight)
    ∧ (progEntry 0 exBench).estimated1RM =
        if (progEntry 0 exBench).maxReps = 1 then (progEntry 0 exBench).maxWeight
        else (progEntry 0 exBench).maxWeight * (1 + (progEntry 0 exBench).maxReps / 30) := by
  have hw : 0 < (progEntry 0 exBench).maxWeight := by
    norm_num [progEntry, exMaxWeight, exBench, maxOf, List.foldl]
  have hr : 0 < (progEntry 0 exBench).maxReps := by
    norm_num [progEntry, exMaxReps, exBench, maxOf, List.foldl]
  refine ⟨by decide, hw, hr, ?_, ?_⟩
  · exact ((C4_progression_entry 0 exBench).2.1 (by decide)).2.1
  · exact (C4_progression_entry 0 exBench).2.2.1 hw hr

theorem addToKey_sum {κ : Type} [DecidableEq κ] (k : κ) (v : ℚ) :
    ∀ m : List (κ × ℚ),
      ((addToKey k v m).map (·.2)).sum = (m.map (·.2)).sum + v := by
  intro m
  induction m with
  | nil => simp [addToKey]
  | cons kv rest ih =>
    match kv with
    | (k', v') =>
      rw [addToKey]
      by_cases h : k' = k
      · rw [if_pos h]
        simp only [List.map_cons, List.sum_cons]
        ring
      · rw [if_neg h]
        simp only [List.map_cons, List.sum_cons, ih]
        ring

theorem exStep_proj (exName? : Option String) (date : ℤ)
    (acc : ProgState × ℚ) (e : ExerciseRec) :
    (exStep exName? date acc e).1.volumeTrend = acc.1.volumeTrend
    ∧ (exStep exName? date acc e).1.weeklyVolume = acc.1.weeklyVolume
    ∧ (exStep exName? date acc e).2 =
        acc.2 + (if includeExercise exName? e then exVolume e else 0) := by
  rw [exStep]
  by_cases hinc : includeExercise exName? e
  · rw [if_pos hinc]
    cases hmg : e.muscleGroup <;> simp [hinc]
  · rw [if_neg hinc]
    simp [hinc]

theorem exFold_spec (exName? : Option String) (date : ℤ) :
    ∀ (es : List ExerciseRec) (acc : ProgState × ℚ),
      (es.foldl (exStep exName? date) acc).1.volumeTrend = acc.1.volumeTrend
      ∧ (es.foldl (exStep exName? date) acc).1.weeklyVolume = acc.1.weeklyVolume
      ∧ (es.foldl (exStep exName? date) acc).2 =
          acc.2 + ((es.filter (includeExercise exName?)).map exVolume).sum := by
  intro es
  induction es with
  | nil => intro acc; simp
  | cons e es ih =>
    intro acc
    rw [List.foldl_cons]
    obtain ⟨ht, hw, hv⟩ := ih (exStep exName? date acc e)
    obtain ⟨pt, pw, pv⟩ := exStep_proj exName? date acc e
    refine ⟨by rw [ht, pt], by rw [hw, pw], ?_⟩
    rw [hv, pv, List.filter_cons]
    by_cases hinc : includeExercise exName? e
    · rw [if_pos hinc, if_pos hinc, List.map_cons, List.sum_cons]
      ring
    · rw [if_neg hinc, if_neg (by simp [hinc])]
      ring

theorem progressionStep_sums (exName? : Option String) (st : ProgState)
    (w : Workout) :
    ((progressionStep exName? st w).volumeTrend.map (·.volume)).sum =
      (st.volumeTrend.map (·.volume)).sum +
        ((w.exercises.filter (includeExercise exName?)).map exVolume).sum
    ∧ ((progressionStep exName? st w).weeklyVolume.map (·.2)).sum =
      (st.weeklyVolume.map (·.2)).sum +
        ((w.exercises.filter (includeExercise exName?)).map exVolume).sum := by
  obtain ⟨ht, hw, hv⟩ := exFold_spec exName? w.date w.exercises (st, 0)
  rw [progressionStep]
  constructor
  · simp only [List.map_append, List.sum_append, ht, hv]
    simp
  · rw [addToKey_sum, hw, hv]
    simp

theorem progressionFold_sums (exName? : Option String) :
    ∀ (ws : List Workout) (st : ProgState),
      ((ws.foldl (progressionStep exName?) st).volumeTrend.map (·.volume)).sum =
        (st.volumeTrend.map (·.volume)).sum +
          (ws.map (fun w =>
            ((w.exercises.filter (includeExercise exName?)).map exVolume).sum)).sum
      ∧ ((ws.foldl (progressionStep exName?) st).weeklyVolume.map (·.2)).sum =
        (st.weeklyVolume.map (·.2)).sum +
          (ws.map (fun w =>
            ((w.exercises.filter (includeExercise exName?)).map exVolume).sum)).sum := by
  intro ws
  induction ws with
  | nil => intro st; simp
  | cons w ws ih =>
    intro st
    rw [List.foldl_cons]
    obtain ⟨iht, ihw⟩ := ih (progressionStep exName? st w)
    obtain ⟨pt, pw⟩ := progressionStep_sums exName? st w
    constructor
    · rw [iht, pt, List.map_cons, List.sum_cons]
      ring
    · rw [ihw, pw, List.map_cons, List.sum_cons]
      ring

/-- C10: in the progression response, the total volume over all
weeklyVolume buckets equals the total volume over all volumeTrend points,
and both equal the summed reps*weight volume of the exercises admitted by
the name filter across the queried workouts: bucketing by week conserves
total volume. -/
theorem C10_volume_conservation (exName? muscleGroup? : Option String)
    (startDay : ℤ) (ws : List Workout) :
    ((progression exName? muscleGroup? startDay ws).weeklyVolume.map (·.2)).sum =
      ((progression exName? muscleGroup? startDay ws).volumeTrend.map
        (·.volume)).sum
    ∧ ((progression exName? muscleGroup? startDay ws).volumeTrend.map
        (·.volume)).sum =
      ((progressionQuery muscleGroup? startDay ws).map (fun w =>
        ((w.exercises.filter (includeExercise exName?)).map exVolume).sum)).sum := by
  obtain ⟨ht, hw⟩ := progressionFold_sums exName?
    (progressionQuery muscleGroup? startDay ws)
    { exerciseProgress := []
      muscleGroupDistribution := []
      volumeTrend := []
      weeklyVolume := [] }
  rw [progression]
  constructor
  · rw [ht, hw]
    simp
  · rw [ht]
    simp

theorem lookupKey_append_single {β : Type} (k k' : String) (v : β) :
    ∀ l : List (String × β),
      lookupKey k (l ++ [(k', v)]) =
        match lookupKey k l with
        | some x => some x
        | none => if k' = k then some v else none := by
  intro l
  induction l with
  | nil => simp [lookupKey]
  | cons kv rest ih =>
    match kv with
    | (k₀, v₀) =>
      rw [List.cons_append, lookupKey, lookupKey]
      by_cases h : k₀ = k
      · rw [if_pos h, if_pos h]
      · rw [if_neg h, if_neg h, ih]

theorem lookupKey_updateKey {β : Type} (k k' : String) (f : β → β) :
    ∀ l : List (String × β),
      lookupKey k (updateKey k' f l) =
        if k' = k then (lookupKey k l).map f else lookupKey k l := by
  intro l
  induction l with
  | nil => simp [lookupKey, updateKey]
  | cons kv rest ih =>
    match kv with
    | (k₀, v₀) =>
      rw [updateKey]
      by_cases h0 : k₀ = k'
      · rw [if_pos h0, lookupKey, lookupKey]
        by_cases hk : k₀ = k
        · rw [if_pos hk, if_pos hk, if_pos (h0 ▸ hk)]
          rfl
        · rw [if_neg hk, if_neg hk]
          by_cases hkk : k' = k
          · exact absurd (h0.trans hkk) hk
          · rw [if_neg hkk]
      · rw [if_neg h0, lookupKey, lookupKey]
        by_cases hk : k₀ = k
        · rw [if_pos hk, if_pos hk]
          by_cases hkk : k' = k
          · exact absurd (hkk.trans hk.symm).symm h0
          · rw [if_neg hkk]
        · rw [if_neg hk, if_neg hk, ih]

theorem prsCompute_eq_occs (exName? : Option String) (ws : List Workout) :
    prsCompute exName? ws = (occsOf ws).foldl
      (fun acc de => prExStep exName? de.1 acc de.2) [] := by
  rw [prsCompute, occsOf]
  generalize prsQuery ws = l
  suffices h : ∀ (l : List Workout) (init : List (String × PrRec)),
      l.foldl (prsStep exName?) init =
        (l.flatMap (fun w => w.exercises.map (fun e => (w.date, e)))).foldl
          (fun acc de => prExStep exName? de.1 acc de.2) init from h l []
  intro l
  induction l with
  | nil => intro init; rfl
  | cons w l ih =>
    intro init
    rw [List.foldl_cons, List.flatMap_cons, List.foldl_append, ih]
    congr 1
    rw [prsStep, List.foldl_map]

theorem prUpdate_proj (d : ℤ) (mw mr tv : ℚ) (pr : PrRec) :
    (prUpdate d mw mr tv pr).maxWeight = (if pr.maxWeight < mw then mw else pr.maxWeight)
    ∧ (prUpdate d mw mr tv pr).maxWeightDate =
        (if pr.maxWeight < mw then d else pr.maxWeightDate)
    ∧ (prUpdate d mw mr tv pr).maxReps = (if pr.maxReps < mr then mr else pr.maxReps)
    ∧ (prUpdate d mw mr tv pr).maxRepsDate =
        (if pr.maxReps < mr then d else pr.maxRepsDate)
    ∧ (prUpdate d mw mr tv pr).maxVolume = (if pr.maxVolume < tv then tv else pr.maxVolume)
    ∧ (prUpdate d mw mr tv pr).maxVolumeDate =
        (if pr.maxVolume < tv then d else pr.maxVolumeDate) := by
  by_cases h1 : pr.maxWeight < mw <;> by_cases h2 : pr.maxReps < mr <;>
    by_cases h3 : pr.maxVolume < tv <;>
      simp [prUpdate, h1, h2, h3]

theorem dim_update (f : ℤ × ExerciseRec → ℚ) (l : List (ℤ × ExerciseRec))
    (de : ℤ × ExerciseRec) (B : ℚ) (D : ℤ)
    (hb : ∀ x ∈ l, f x ≤ B) (he : ∃ x ∈ l, f x = B ∧ D = x.1) :
    (∀ x ∈ l ++ [de], f x ≤ (if B < f de then f de else B))
    ∧ (∃ x ∈ l ++ [de], f x = (if B < f de then f de else B)
        ∧ (if B < f de then de.1 else D) = x.1) := by
  constructor
  · intro x hx
    by_cases hc : B < f de
    · rw [if_pos hc]
      rcases List.mem_append.mp hx with h | h
      · exact le_trans (hb x h) (le_of_lt hc)
      · rw [List.mem_singleton.mp h]
    · rw [if_neg hc]
      rcases List.mem_append.mp hx with h | h
      · exact hb x h
      · rw [List.mem_singleton.mp h]
        exact le_of_not_lt hc
  · by_cases hc : B < f de
    · refine ⟨de, List.mem_append_right _ (List.mem_singleton_self de), ?_, ?_⟩
      · rw [if_pos hc]
      · rw [if_pos hc]
    · obtain ⟨x, hx, hfx, hDx⟩ := he
      exact ⟨x, List.mem_append_left _ hx, by rw [if_neg hc]; exact hfx,
        by rw [if_neg hc]; exact hDx⟩

theorem PrChar_init (de : ℤ × ExerciseRec) :
    PrChar [de] ⟨exMaxWeight de.2, exMaxReps de.2, exVolume de.2,
      de.1, de.1, de.1⟩ := by
  refine ⟨?_, ⟨de, by simp, rfl, rfl⟩, ?_, ⟨de, by simp, rfl, rfl⟩, ?_,
    ⟨de, by simp, rfl, rfl⟩⟩ <;>
    · intro x hx
      rw [List.mem_singleton.mp hx]

theorem PrChar_update {l : List (ℤ × ExerciseRec)} {pr : PrRec}
    (de : ℤ × ExerciseRec) (h : PrChar l pr) :
    PrChar (l ++ [de])
      (prUpdate de.1 (exMaxWeight de.2) (exMaxReps de.2) (exVolume de.2) pr) := by
  obtain ⟨w1, w2, r1, r2, v1, v2⟩ := h
  obtain ⟨pw, pwd, prr, prd, pv, pvd⟩ :=
    prUpdate_proj de.1 (exMaxWeight de.2) (exMaxReps de.2) (exVolume de.2) pr
  obtain ⟨dw1, dw2⟩ := dim_update (fun x => exMaxWeight x.2) l de pr.maxWeight
    pr.maxWeightDate w1 w2
  obtain ⟨dr1, dr2⟩ := dim_update (fun x => exMaxReps x.2) l de pr.maxReps
    pr.maxRepsDate r1 r2
  obtain ⟨dv1, dv2⟩ := dim_update (fun x => exVolume x.2) l de pr.maxVolume
    pr.maxVolumeDate v1 v2
  refine ⟨?_, ?_, ?_, ?_, ?_, ?_⟩
  · rw [pw]
    exact dw1
  · rw [pw, pwd]
    exact dw2
  · rw [prr]
    exact dr1
  · rw [prr, prd]
    exact dr2
  · rw [pv]
    exact dv1
  · rw [pv, pvd]
    exact dv2

theorem prsFold_char (exName? : Option String) :
    ∀ (occs : List (ℤ × ExerciseRec)) (n : String),
      (lookupKey n (occs.foldl (fun acc de => prExStep exName? de.1 acc de.2) [])
          = none →
        occFilter exName? n occs = [])
      ∧ (∀ pr : PrRec,
          lookupKey n (occs.foldl (fun acc de => prExStep exName? de.1 acc de.2) [])
            = some pr →
          PrChar (occFilter exName? n occs) pr) := by
  intro occs
  induction occs using List.reverseRecOn with
  | nil =>
    intro n
    exact ⟨fun _ => rfl, fun pr h => absurd h (by simp [lookupKey])⟩
  | append_singleton occs de ih =>
    intro n
    simp only [List.foldl_append, List.foldl_cons, List.foldl_nil]
    have hfil : occFilter exName? n (occs ++ [de]) =
        occFilter exName? n occs ++
          (if includeExercise exName? de.2 && de.2.name == n then [de] else []) := by
      rw [occFilter, occFilter, List.filter_append]
      congr 1
      by_cases hc : includeExercise exName? de.2 && de.2.name == n
      · simp [List.filter, hc]
      · simp [List.filter, hc]
    rw [prExStep]
    by_cases hinc : includeExercise exName? de.2
    · rw [if_pos hinc]
      cases hlk : lookupKey de.2.name
          (occs.foldl (fun acc de => prExStep exName? de.1 acc de.2) []) with
      | none =>
        by_cases hn : de.2.name = n
        · have hlkn : lookupKey n
              (occs.foldl (fun acc de => prExStep exName? de.1 acc de.2) [])
              = none := by
            rw [← hn]
            exact hlk
          rw [lookupKey_append_single, hlkn, if_pos hn]
          constructor
          · intro h
            exact absurd h (by simp)
          · intro pr hpr
            rw [← Option.some_inj.mp hpr, hfil, (ih n).1 hlkn,
              if_pos (by simp [hinc, hn])]
            simpa using PrChar_init de
        · rw [lookupKey_append_single]
          cases hlkn : lookupKey n
              (occs.foldl (fun acc de => prExStep exName? de.1 acc de.2) []) with
          | none =>
            refine ⟨fun _ => ?_, fun pr hpr => ?_⟩
            · rw [hfil, if_neg (by simp [hn]), List.append_nil]
              exact (ih n).1 hlkn
            · rw [if_neg hn] at hpr
              exact absurd hpr (by simp)
          | some x =>
            refine ⟨fun hcon => absurd hcon (by simp), fun pr hpr => ?_⟩
            rw [hfil, if_neg (by simp [hn]), List.append_nil]
            exact (ih n).2 pr (by rw [hlkn, Option.some_inj.mp hpr])
      | some pr₀ =>
        by_cases hn : de.2.name = n
        · have hlkn : lookupKey n
              (occs.foldl (fun acc de => prExStep exName? de.1 acc de.2) [])
              = some pr₀ := by
            rw [← hn]
            exact hlk
          rw [lookupKey_updateKey, if_pos hn, hlkn, Option.map_some']
          constructor
          · intro h
            exact absurd h (by simp)
          · intro pr hpr
            rw [← Option.some_inj.mp hpr, hfil, if_pos (by simp [hinc, hn])]
            exact PrChar_update de ((ih n).2 pr₀ hlkn)
        · rw [lookupKey_updateKey, if_neg hn, hfil, if_neg (by simp [hn]),
            List.append_nil]
          exact ih n
    · rw [if_neg hinc, hfil, if_neg (by simp [hinc]), List.append_nil]
      exact ih n

/-- C5 counterexample: with Squat history [one set (10 reps, 10 kg)] then
[two sets (8 reps, 8 kg)], the stored records are maxWeight 10, maxReps 10,
maxVolume 128, and the second workout's volume 128 equals the stored
maximum on the volume dimension, yet the frontend badge flags nothing for
it: the flag only checks the weight and reps dimensions, so a record
equalled or set on volume alone is not flagged. -/
theorem C5_pr_counterexample :
    lookupKey ("Squat") (prsCompute none [wVolA, wVolB]) =
      some ⟨10, 10, 128, 0, 0, 1⟩
    ∧ (⟨10, 10, 128, 0, 0, 1⟩ : PrRec).maxVolume ≤
        exVolume (mkSquat [mkSet 8 8, mkSet 8 8])
    ∧ workoutPRs (prsCompute none [wVolA, wVolB]) wVolB = [] := by
  refine ⟨?_, ?_, ?_⟩
  · norm_num [prsCompute, prsQuery, sortByDateAsc, List.insertionSort,
      List.orderedInsert, wVolA, wVolB, mkWorkout, mkSquat, mkSet, prsStep,
      prExStep, includeExercise, lookupKey, updateKey, prUpdate, exMaxWeight,
      exMaxReps, exVolume, maxOf, List.foldl, List.filter]
  · norm_num [exVolume, mkSquat, mkSet, List.foldl]
  · norm_num [prsCompute, prsQuery, sortByDateAsc, List.insertionSort,
      List.orderedInsert, wVolA, wVolB, mkWorkout, mkSquat, mkSet, prsStep,
      prExStep, includeExercise, lookupKey, updateKey, prUpdate, exMaxWeight,
      exMaxReps, exVolume, maxOf, List.foldl, List.filter, workoutPRs,
      jsMaxWithZero]

/-- C5 (amended): GET /prs tracks, per exercise name across all completed
workouts, the maximum-ever maxWeight, maxReps and totalVolume with the
date each was achieved (a stored entry exists exactly when the name
occurs, and it bounds and is attained by the occurrences); the frontend
flags a later workout's exercise as a PR when its sets equal or exceed the
stored maximum on the weight or reps dimensions (volume is tracked but
never triggers the flag).  For Squat workouts with maxWeight 100 then 110
then 100, the second workout is flagged and the third is not. -/
theorem C5_personal_records (exName? : Option String) (ws : List Workout) :
    (∀ n : String,
      (lookupKey n (prsCompute exName? ws) = none →
        occFilter exName? n (occsOf ws) = [])
      ∧ (∀ pr : PrRec, lookupKey n (prsCompute exName? ws) = some pr →
          PrChar (occFilter exName? n (occsOf ws)) pr))
    ∧ (∀ (prs : List (String × PrRec)) (w : Workout) (ex : ExerciseRec),
        ex ∈ workoutPRs prs w ↔
          ex ∈ w.exercises ∧ ∃ pr : PrRec, lookupKey ex.name prs = some pr ∧
            (pr.maxWeight ≤ jsMaxWithZero (ex.sets.map (·.weight)) ∨
              pr.maxReps ≤ jsMaxWithZero (ex.sets.map (·.reps))))
    ∧ workoutPRs (prsCompute none [wPr1, wPr2, wPr3]) wPr2 =
        [mkSquat [mkSet 5 110]]
    ∧ workoutPRs (prsCompute none [wPr1, wPr2, wPr3]) wPr3 = [] := by
  refine ⟨?_, ?_, ?_, ?_⟩
  · intro n
    rw [prsCompute_eq_occs]
    exact prsFold_char exName? (occsOf ws) n
  · intro prs w ex
    rw [workoutPRs, List.mem_filter]
    constructor
    · rintro ⟨hmem, hpred⟩
      refine ⟨hmem, ?_⟩
      cases hlk : lookupKey ex.name prs with
      | none =>
        rw [hlk] at hpred
        exact absurd hpred (by simp)
      | some pr =>
        rw [hlk] at hpred
        simp only [Bool.or_eq_true, decide_eq_true_eq] at hpred
        exact ⟨pr, rfl, hpred⟩
    · rintro ⟨hmem, pr, hpr, hcond⟩
      refine ⟨hmem, ?_⟩
      rw [hpr]
      simp only [Bool.or_eq_true, decide_eq_true_eq]
      exact hcond
  · norm_num [prsCompute, prsQuery, sortByDateAsc, List.insertionSort,
      List.orderedInsert, wPr1, wPr2, wPr3, mkWorkout, mkSquat, mkSet, prsStep,
      prExStep, includeExercise, lookupKey, updateKey, prUpdate, exMaxWeight,
      exMaxReps, exVolume, maxOf, List.foldl, List.filter, workoutPRs,
      jsMaxWithZero]
  · norm_num [prsCompute, prsQuery, sortByDateAsc, List.insertionSort,
      List.orderedInsert, wPr1, wPr2, wPr3, mkWorkout, mkSquat, mkSet, prsStep,
      prExStep, includeExercise, lookupKey, updateKey, prUpdate, exMaxWeight,
      exMaxReps, exVolume, maxOf, List.foldl, List.filter, workoutPRs,
      jsMaxWithZero]

/-- C5 witness: for the 100/110/100 Squat history the stored record is
maxWeight 110 set on day 1, maxReps 5 on day 0, maxVolume 550 on day 1,
and the theorem's characterization holds of it. -/
theorem C5_personal_records_witness :
    lookupKey ("Squat") (prsCompute none [wPr1, wPr2, wPr3]) =
      some ⟨110, 5, 550, 1, 0, 1⟩
    ∧ PrChar (occFilter none ("Squat") (occsOf [wPr1, wPr2, wPr3]))
        ⟨110, 5, 550, 1, 0, 1⟩ := by
  have hlk : lookupKey ("Squat") (prsCompute none [wPr1, wPr2, wPr3]) =
      some ⟨110, 5, 550, 1, 0, 1⟩ := by
    norm_num [prsCompute, prsQuery, sortByDateAsc, List.insertionSort,
      List.orderedInsert, wPr1, wPr2, wPr3, mkWorkout, mkSquat, mkSet, prsStep,
      prExStep, includeExercise, lookupKey, updateKey, prUpdate, exMaxWeight,
      exMaxReps, exVolume, maxOf, List.foldl, List.filter]
  exact ⟨hlk,
    ((C5_personal_records none [wPr1, wPr2, wPr3]).1 ("Squat")).2 _ hlk⟩

end HabitGym
